import Mathlib

/-!
# BatteryOS splitter policy: a shallow embedding of `src/bosinc/SplitterPolicy.hpp`

Conventions of the embedding.

* A finite C++ `double` is the rational number it denotes and `none` stands for
  a non-finite value (an infinity or a NaN), which is what a floating-point
  division by zero produces.  The conversion of an integer to `double`, the
  quotient and the product of two doubles round to the nearest binary64 value,
  ties to even (`double.fl`).  The exponent range of binary64 is not modelled:
  the values rounded here are integers of 64 bits, their quotients and their
  products with a Scale field.  The sum and the difference of two Scale fields
  are taken exactly, as the properties about Scale arithmetic state them.
* `int64_t` and `uint32_t` values are mathematical integers; signed overflow is
  undefined behaviour in C++ and lies outside the model.  The conversion of a
  non-finite `double` to `int64_t` is undefined as well; its result is a value
  the `World` supplies.
* A `Battery*` is an object identity or the null pointer.
* A `std::map` is an association list with lookup, assignment and the
  default-inserting `operator[]`.
* Calls into collaborators (the source battery, the donor battery, the
  directory) are answered by a `World` given at each call and the commands sent
  to them are recorded in the result of the operation.
* `warning(...)` only logs and the lock guard only serialises calls; neither
  changes a value and neither is modelled.
-/

namespace BatteryOS

/-- A C++ `double`: `some q` is the finite value `q`, `none` is a non-finite value. -/
abbrev double := Option ℚ

/-- The integer nearest to a rational, a tie going to the even neighbour. -/
def double.round_even (x : ℚ) : Int :=
  if x - ⌊x⌋ < 1 / 2 then ⌊x⌋
  else if 1 / 2 < x - ⌊x⌋ then ⌊x⌋ + 1
  else if ⌊x⌋ % 2 = 0 then ⌊x⌋ else ⌊x⌋ + 1

/-- The spacing of the binary64 values around a positive rational `x`: with
`2 ^ e <= x < 2 ^ (e + 1)` it is `2 ^ (e - 52)`, a significand having 53 bits. -/
def double.ulp (x : ℚ) : ℚ := (2 : ℚ) ^ (Int.log 2 x - 52)

/-- Rounding of a positive rational to the nearest binary64 value, ties to even. -/
def double.round_pos (x : ℚ) : ℚ := (double.round_even (x / double.ulp x) : ℚ) * double.ulp x

/-- Rounding of a rational to the nearest binary64 value, ties to even; binary64 is symmetric
in the sign. -/
def double.fl (q : ℚ) : ℚ :=
  if q = 0 then 0 else if 0 < q then double.round_pos q else -double.round_pos (-q)

/-- Conversion `(double)n` of an `int64_t`. -/
def double.ofInt (n : Int) : ℚ := double.fl (n : ℚ)

/-- The product `a * b` of two doubles. -/
def double.mul (a b : ℚ) : ℚ := double.fl (a * b)

/-- Floating-point division `(double)a / b` of two integers, both converted to `double`; a
zero divisor gives a non-finite value. -/
def double.div (a b : Int) : double :=
  if b = 0 then none else some (double.fl (double.ofInt a / double.ofInt b))

/-- Conversion of `bool` to `double`. -/
def double.ofBool (b : Bool) : double := if b then some 1 else some 0

namespace ProportionalPolicy

/-- The four fractions of `struct Scale`. -/
structure Scale where
  state_of_charge : ℚ
  max_capacity : ℚ
  max_discharge_rate : ℚ
  max_charge_rate : ℚ
  deriving DecidableEq, Repr

namespace Scale

/-- `static bool within_01_range(double num)`; every comparison with a non-finite value that
could reach it (an infinity or a NaN) fails at least one of its two conjuncts. -/
def within_01_range (num : double) : Bool :=
  match num with
  | some x => decide (0 ≤ x) && decide (x ≤ 1)
  | none => false

/-- The constructor `Scale(double soc, double max_cap, double max_discharge_rate,
double max_charge_rate)`. -/
def new (soc max_cap max_discharge_rate max_charge_rate : double) : Scale :=
  if !(within_01_range soc && within_01_range max_cap &&
      within_01_range max_discharge_rate && within_01_range max_charge_rate) then
    ⟨0, 0, 0, 0⟩
  else
    ⟨soc.getD 0, max_cap.getD 0, max_discharge_rate.getD 0, max_charge_rate.getD 0⟩

/-- The constructor `Scale(double proportion = 0.0)`. -/
def newProportion (proportion : double) : Scale :=
  if !(within_01_range proportion) then
    ⟨0, 0, 0, 0⟩
  else
    ⟨proportion.getD 0, proportion.getD 0, proportion.getD 0, proportion.getD 0⟩

/-- `Scale operator-(const Scale &other)`, the differences taken exactly. -/
def sub (this other : Scale) : Scale :=
  if this.state_of_charge ≥ other.state_of_charge ∧
      this.max_capacity ≥ other.max_capacity ∧
      this.max_discharge_rate ≥ other.max_discharge_rate ∧
      this.max_charge_rate ≥ other.max_charge_rate then
    new
      (some (this.state_of_charge - other.state_of_charge))
      (some (this.max_capacity - other.max_capacity))
      (some (this.max_discharge_rate - other.max_discharge_rate))
      (some (this.max_charge_rate - other.max_charge_rate))
  else
    newProportion (some 0)

/-- `Scale operator+(const Scale &other)`, the sums taken exactly.  The fourth conjunct of the guard is the source's
`within_01_range(this->max_charge_rate >= other.max_charge_rate)`: the range test is applied to
the truth value of a comparison. -/
def add (this other : Scale) : Scale :=
  if within_01_range (some (this.state_of_charge + other.state_of_charge)) &&
      within_01_range (some (this.max_capacity + other.max_capacity)) &&
      within_01_range (some (this.max_discharge_rate + other.max_discharge_rate)) &&
      within_01_range (double.ofBool (decide (this.max_charge_rate ≥ other.max_charge_rate))) then
    new
      (some (this.state_of_charge + other.state_of_charge))
      (some (this.max_capacity + other.max_capacity))
      (some (this.max_discharge_rate + other.max_discharge_rate))
      (some (this.max_charge_rate + other.max_charge_rate))
  else
    newProportion (some 0)

/-- Every field lies in `[0,1]`. -/
def InRange (s : Scale) : Prop :=
  (0 ≤ s.state_of_charge ∧ s.state_of_charge ≤ 1) ∧
  (0 ≤ s.max_capacity ∧ s.max_capacity ≤ 1) ∧
  (0 ≤ s.max_discharge_rate ∧ s.max_discharge_rate ≤ 1) ∧
  (0 ≤ s.max_charge_rate ∧ s.max_charge_rate ≤ 1)

instance (s : Scale) : Decidable (InRange s) := by
  unfold InRange; infer_instance

/-- Component-wise `this ≥ other`, the guard of `operator-`. -/
def GE (this other : Scale) : Prop :=
  this.state_of_charge ≥ other.state_of_charge ∧
  this.max_capacity ≥ other.max_capacity ∧
  this.max_discharge_rate ≥ other.max_discharge_rate ∧
  this.max_charge_rate ≥ other.max_charge_rate

instance (a b : Scale) : Decidable (GE a b) := by
  unfold GE; infer_instance

/-- A `double` argument that is a finite number in `[0,1]`. -/
def In01 (d : double) : Prop := ∃ x : ℚ, d = some x ∧ 0 ≤ x ∧ x ≤ 1

end Scale

end ProportionalPolicy

/-! ## Collaborators -/

/-- A `Battery*`: the identity of a battery object, or `none` for the null pointer. -/
abbrev BatteryPtr := Option Nat

/-- Modelled from the spec: the `timepoint_t` of the missing `BatteryInterface.hpp`, a point in
time that the policy only passes on to the source. -/
abbrev timepoint_t := Int

/-- Modelled from the spec: the `BatteryStatus` record of the missing `BatteryInterface.hpp`,
with the six integer fields the spec lists. -/
structure BatteryStatus where
  voltage_mV : Int
  current_mA : Int
  state_of_charge_mAh : Int
  max_capacity_mAh : Int
  max_charging_current_mA : Int
  max_discharging_current_mA : Int
  deriving DecidableEq, Repr

/-- Modelled from the spec: the `BOSDirectory` of the missing `BOSDirectory.hpp`, a name-keyed
registry of battery objects whose backing store is a name to battery map. -/
structure BOSDirectory where
  entries : List (String × Nat)
  deriving DecidableEq, Repr

namespace BOSDirectory

/-- Modelled from the spec: `get_battery(name) -> battery-or-absent`; the battery registered
under the name, the null pointer when there is none. -/
def get_battery (d : BOSDirectory) (name : String) : BatteryPtr :=
  d.entries.lookup name

/-- Modelled from the spec: `name_exists(name) -> bool`, the existence check of the registry. -/
def name_exists (d : BOSDirectory) (name : String) : Bool :=
  (d.entries.lookup name).isSome

end BOSDirectory

/-- What the collaborators answer during one call of the policy: the directory's content, the
status `get_status()` of every battery and its `get_estimated_soc()`; and the value that the
platform yields for a conversion to `int64_t` that C++ leaves undefined. -/
structure World where
  directory : BOSDirectory
  get_status : BatteryPtr → BatteryStatus
  get_estimated_soc : BatteryPtr → Int
  undefined_int64 : Int

/-- A command the policy sends to a collaborator. -/
inductive Call where
  | schedule_set_current (battery : BatteryPtr) (target_current_mA : Int)
      (is_greater_than_target : Bool) (when_to_set until_when : timepoint_t)
  | reset_estimated_soc (battery : BatteryPtr)
  deriving DecidableEq, Repr

/-! ## `std::map` -/

namespace StdMap

variable {K V : Type} [DecidableEq K]

/-- The value stored under a key, if any (`find`). -/
def find : List (K × V) → K → Option V
  | [], _ => none
  | (k', v) :: t, k => if k' = k then some v else find t k

/-- The assignment `m[k] = v`: overwrite the entry of `k`, or add one. -/
def assign : List (K × V) → K → V → List (K × V)
  | [], k, v => [(k, v)]
  | (k', v') :: t, k, v => if k' = k then (k, v) :: t else (k', v') :: assign t k v

/-- The map after evaluating `m[k]`: an absent key is inserted with the value-initialised
`dflt`. -/
def touch (m : List (K × V)) (k : K) (dflt : V) : List (K × V) :=
  match find m k with
  | some _ => m
  | none => assign m k dflt

/-- The value of the expression `m[k]`. -/
def get (m : List (K × V)) (k : K) (dflt : V) : V :=
  (find m k).getD dflt

/-- The keys of the map. -/
def keys (m : List (K × V)) : List K := m.map Prod.fst

end StdMap

/-! ## ProportionalPolicy -/

namespace ProportionalPolicy

/-- The members of `ProportionalPolicy` that its operations read and write: the resolved
`source` pointer of the base class and the three containers. -/
structure State where
  source : BatteryPtr
  current_map : List (BatteryPtr × Int)
  scale_map : List (BatteryPtr × Scale)
  children : List BatteryPtr
  deriving DecidableEq, Repr

/-- The default-constructed `Scale()`, which is `Scale(0.0)`. -/
def Scale.dflt : Scale := Scale.newProportion (some 0)

/-- The constructor `ProportionalPolicy(policy_name, src_name, directory, first_battery)`. -/
def create (src_name : String) (directory : BOSDirectory) (first_battery : BatteryPtr) : State :=
  { source := directory.get_battery src_name
    current_map := StdMap.assign [] first_battery 0
    scale_map := StdMap.assign [] first_battery (Scale.newProportion (some 1))
    children := [] ++ [first_battery] }

/-- `get_children()`. -/
def get_children (p : State) : State × List BatteryPtr :=
  (p, p.children)

/-- The implicit conversion of a finite `double` to `int64_t`: truncation toward zero. -/
def to_int64 (x : ℚ) : Int := Int.tdiv x.num x.den

/-- The result of `get_status_of`: the policy afterwards and the returned status. -/
structure StatusResult where
  policy : State
  status : BatteryStatus

/-- The conversion `(int64_t)x` of a `double`: truncation of a finite value, and whatever the
platform yields for a value that is not finite. -/
def double_to_int64 (w : World) (x : double) : Int :=
  match x with
  | some q => to_int64 q
  | none => w.undefined_int64

/-- `get_status_of(child)`. -/
def get_status_of (p : State) (w : World) (child : BatteryPtr) : StatusResult :=
  let source_status := w.get_status p.source
  let scale := StdMap.get p.scale_map child Scale.dflt
  let scale_map := StdMap.touch p.scale_map child Scale.dflt
  let estimated_soc := w.get_estimated_soc child
  let total_estimated_soc := p.children.foldl (fun acc c => acc + w.get_estimated_soc c) 0
  let total_actual_soc := source_status.state_of_charge_mAh
  let actual_soc := double_to_int64 w
    ((double.div estimated_soc total_estimated_soc).map
      (fun q => double.mul q (double.ofInt total_actual_soc)))
  let current := StdMap.get p.current_map child 0
  let current_map := StdMap.touch p.current_map child 0
  { policy := { p with scale_map := scale_map, current_map := current_map }
    status :=
      { voltage_mV := source_status.voltage_mV
        current_mA := current
        state_of_charge_mAh := actual_soc
        max_capacity_mAh :=
          to_int64 (double.mul (double.ofInt source_status.max_capacity_mAh) scale.max_capacity)
        max_charging_current_mA :=
          to_int64
            (double.mul (double.ofInt source_status.max_charging_current_mA)
              scale.max_charge_rate)
        max_discharging_current_mA :=
          to_int64
            (double.mul (double.ofInt source_status.max_discharging_current_mA)
              scale.max_discharge_rate) } }

/-- The result of `schedule_set_current_of`: the policy afterwards, the returned `uint32_t` and
the commands sent to the source. -/
structure ScheduleResult where
  policy : State
  ret : Nat
  calls : List Call
  deriving DecidableEq, Repr

/-- The guard of `schedule_set_current_of` under which the target is refused: each side of a
comparison is a `double`, the integers being converted and the product rounded. -/
def target_too_high (source_status : BatteryStatus) (scale : Scale) (target_current_mA : Int) :
    Prop :=
  double.ofInt target_current_mA >
      double.mul (double.ofInt source_status.max_discharging_current_mA)
        scale.max_discharge_rate ∨
    double.ofInt (-target_current_mA) >
      double.mul (double.ofInt source_status.max_charging_current_mA) scale.max_charge_rate

instance (s : BatteryStatus) (sc : Scale) (t : Int) : Decidable (target_too_high s sc t) := by
  unfold target_too_high; infer_instance

/-- `schedule_set_current_of(child, target_current_mA, is_greater_than_target, when_to_set,
until_when)`. -/
def schedule_set_current_of (p : State) (w : World) (child : BatteryPtr)
    (target_current_mA : Int) (is_greater_than_target : Bool)
    (when_to_set until_when : timepoint_t) : ScheduleResult :=
  let scale := StdMap.get p.scale_map child Scale.dflt
  let p1 : State := { p with scale_map := StdMap.touch p.scale_map child Scale.dflt }
  let source_status := w.get_status p.source
  if target_too_high source_status scale target_current_mA then
    { policy := p1, ret := 0, calls := [] }
  else
    let current_map := StdMap.assign p1.current_map child target_current_mA
    let new_currents := current_map.foldl (fun acc e => acc + e.2) 0
    { policy := { p1 with current_map := current_map }
      ret := 0
      calls := [Call.schedule_set_current p.source new_currents is_greater_than_target
        when_to_set until_when] }

/-- The result of `fork_from`: the policy afterwards, the returned status and the commands sent
to the donor. -/
structure ForkResult where
  policy : State
  ret : BatteryStatus
  calls : List Call
  deriving DecidableEq, Repr

/-- The `actual_status` that `fork_from` computes from the requested status and the donor's. -/
def fork_actual_status (target_status from_status : BatteryStatus) : BatteryStatus :=
  { voltage_mV := from_status.voltage_mV
    current_mA := 0
    state_of_charge_mAh := min target_status.state_of_charge_mAh from_status.state_of_charge_mAh
    max_capacity_mAh := min target_status.max_capacity_mAh from_status.max_capacity_mAh
    max_charging_current_mA :=
      min target_status.max_charging_current_mA from_status.max_charging_current_mA
    max_discharging_current_mA :=
      min target_status.max_discharging_current_mA from_status.max_discharging_current_mA }

/-- The `Scale scale(...)` that `fork_from` computes from `actual_status` and the source's
status. -/
def fork_scale (actual_status source_status : BatteryStatus) : Scale :=
  Scale.new
    (double.div actual_status.state_of_charge_mAh source_status.state_of_charge_mAh)
    (double.div actual_status.max_capacity_mAh source_status.max_capacity_mAh)
    (double.div actual_status.max_discharging_current_mA
      source_status.max_discharging_current_mA)
    (double.div actual_status.max_charging_current_mA source_status.max_charging_current_mA)

/-- `fork_from(from_name, child_name, target_status)`. -/
def fork_from (p : State) (w : World) (from_name child_name : String)
    (target_status : BatteryStatus) : ForkResult :=
  if !w.directory.name_exists from_name then
    { policy := p, ret := target_status, calls := [] }
  else if w.directory.name_exists child_name then
    { policy := p, ret := target_status, calls := [] }
  else
    let from_battery := w.directory.get_battery from_name
    let from_status := w.get_status from_battery
    let actual_status := fork_actual_status target_status from_status
    let source_status := w.get_status p.source
    let scale := fork_scale actual_status source_status
    let child_battery := w.directory.get_battery child_name
    let scale_map1 := StdMap.assign p.scale_map child_battery scale
    let current_map1 := StdMap.assign p.current_map child_battery 0
    let donor_scale := StdMap.get scale_map1 from_battery Scale.dflt
    let scale_map2 := StdMap.assign (StdMap.touch scale_map1 from_battery Scale.dflt)
      from_battery (donor_scale.sub scale)
    { policy := { p with scale_map := scale_map2, current_map := current_map1 }
      ret := actual_status
      calls := [Call.reset_estimated_soc from_battery] }

/-- The sum of one Scale field over all entries of a `scale_map`. -/
def scale_sum (field : Scale → ℚ) (m : List (BatteryPtr × Scale)) : ℚ :=
  (m.map (fun e => field e.2)).sum

/-- The sum of all entries of a `current_map`. -/
def current_sum (m : List (BatteryPtr × Int)) : Int :=
  (m.map Prod.snd).sum

/-- One call of a public operation, with what the collaborators answer during it. -/
inductive Step : State → State → Prop where
  | fork_from (p : State) (w : World) (from_name child_name : String)
      (target_status : BatteryStatus) :
      Step p (fork_from p w from_name child_name target_status).policy
  | schedule_set_current_of (p : State) (w : World) (child : BatteryPtr)
      (target_current_mA : Int) (is_greater_than_target : Bool)
      (when_to_set until_when : timepoint_t) :
      Step p (schedule_set_current_of p w child target_current_mA is_greater_than_target
        when_to_set until_when).policy
  | get_status_of (p : State) (w : World) (child : BatteryPtr) :
      Step p (get_status_of p w child).policy

/-- The states reachable from construction by calls of `fork_from`,
`schedule_set_current_of` and `get_status_of`. -/
inductive Reachable : State → Prop where
  | create (src_name : String) (directory : BOSDirectory) (first_battery : BatteryPtr) :
      Reachable (create src_name directory first_battery)
  | step {p q : State} : Reachable p → Step p q → Reachable q

end ProportionalPolicy

/-! ## Quantities used to state the properties -/

namespace ProportionalPolicy

/-- The `total_estimated_soc` that `get_status_of` accumulates over `children`. -/
def total_estimated_soc (p : State) (w : World) : Int :=
  p.children.foldl (fun acc c => acc + w.get_estimated_soc c) 0

/-- Truncation of a rational to an integer, toward zero: the floor of a non-negative number,
the ceiling of a negative one. -/
def truncate (q : ℚ) : Int := if 0 ≤ q then ⌊q⌋ else ⌈q⌉

end ProportionalPolicy

/-! ## Concrete scenarios -/

namespace Scenario

open ProportionalPolicy

/-- A directory holding the physical source battery `src` and the first virtual battery `A`. -/
def directory : BOSDirectory := ⟨[("src", 0), ("A", 1)]⟩

/-- A status with state of charge and capacity 10000 mAh and current limits 10000 mA. -/
def full_status : BatteryStatus :=
  { voltage_mV := 3700
    current_mA := 0
    state_of_charge_mAh := 10000
    max_capacity_mAh := 10000
    max_charging_current_mA := 10000
    max_discharging_current_mA := 10000 }

/-- A world in which every battery reports `full_status` and an estimated state of charge of
10000 mAh. -/
def world : World :=
  { directory := directory
    get_status := fun _ => full_status
    get_estimated_soc := fun _ => 10000
    undefined_int64 := 0 }

/-- The policy constructed over `src` with first child `A`. -/
def policy : State := create "src" directory (some 1)

/-- A requested status of 1000 mAh and 1000 mA in every resource field. -/
def small_request : BatteryStatus :=
  { voltage_mV := 0
    current_mA := 7
    state_of_charge_mAh := 1000
    max_capacity_mAh := 1000
    max_charging_current_mA := 1000
    max_discharging_current_mA := 1000 }

/-- The binary64 value nearest to 1/10, which is what `(double)1000 / 10000` yields. -/
def tenth : ℚ := 3602879701896397 / 36028797018963968

/-- The policy after `fork_from("A", "B", small_request)` in `world`. -/
def policy_after_fork : State :=
  { source := some 0
    current_map := [(some 1, 0), (none, 0)]
    scale_map := [(some 1, ⟨1 - tenth, 1 - tenth, 1 - tenth, 1 - tenth⟩),
      (none, ⟨tenth, tenth, tenth, tenth⟩)]
    children := [some 1] }

/-- A status with current limits of `2 ^ 53` mA. -/
def big_status : BatteryStatus :=
  { voltage_mV := 3700
    current_mA := 0
    state_of_charge_mAh := 10000
    max_capacity_mAh := 10000
    max_charging_current_mA := 9007199254740992
    max_discharging_current_mA := 9007199254740992 }

/-- A world in which every battery reports `big_status`. -/
def big_world : World :=
  { directory := directory
    get_status := fun _ => big_status
    get_estimated_soc := fun _ => 10000
    undefined_int64 := 0 }

/-- The binary64 value nearest to 6/10, the scale left to a donor of scale 1 after 2 of 5 were
carved from it. -/
def six_tenths : ℚ := 5404319552844595 / 9007199254740992

/-- A status reporting 5 in every resource field. -/
def five_status : BatteryStatus :=
  { voltage_mV := 3700
    current_mA := 0
    state_of_charge_mAh := 5
    max_capacity_mAh := 5
    max_charging_current_mA := 5
    max_discharging_current_mA := 5 }

/-- A world in which every battery reports `five_status`. -/
def five_world : World :=
  { directory := directory
    get_status := fun _ => five_status
    get_estimated_soc := fun _ => 10000
    undefined_int64 := 0 }

/-- A policy whose single child holds the scale `six_tenths` in every field. -/
def policy_six_tenths : State :=
  { source := some 0
    current_map := [(some 1, 0)]
    scale_map := [(some 1, ⟨six_tenths, six_tenths, six_tenths, six_tenths⟩)]
    children := [some 1] }

/-- A policy whose two entries each hold half of the source and have the targets 3000 mA and
-2000 mA recorded. -/
def policy_halves : State :=
  { source := some 0
    current_map := [(some 1, 3000), (none, -2000)]
    scale_map := [(some 1, ⟨1/2, 1/2, 1/2, 1/2⟩), (none, ⟨1/2, 1/2, 1/2, 1/2⟩)]
    children := [some 1] }

end Scenario

/-! ## Helper lemmas -/

namespace double

theorem ulp_pos (x : ℚ) : 0 < ulp x := by
  unfold ulp
  positivity

theorem round_even_intCast (z : Int) : round_even (z : ℚ) = z := by
  unfold round_even
  simp

theorem floor_le_round_even (x : ℚ) : ⌊x⌋ ≤ round_even x := by
  unfold round_even
  split
  · exact le_refl _
  · split
    · omega
    · split
      · exact le_refl _
      · omega

theorem round_even_le (x : ℚ) : (round_even x : ℚ) ≤ x + 1 / 2 := by
  have hf := Int.floor_le x
  have hl := Int.lt_floor_add_one x
  unfold round_even
  split
  · linarith
  · rename_i h1
    split
    · rename_i h2
      push_cast
      linarith
    · rename_i h2
      have he : x - ⌊x⌋ = 1 / 2 := le_antisymm (not_lt.1 h2) (not_lt.1 h1)
      split
      · linarith
      · push_cast
        linarith

theorem two_zpow_log_le {x : ℚ} (hx : 0 < x) : (2 : ℚ) ^ Int.log 2 x ≤ x := by
  have := Int.zpow_log_le_self (b := 2) (by norm_num) hx
  simpa using this

theorem lt_two_zpow_log_succ (x : ℚ) : x < (2 : ℚ) ^ (Int.log 2 x + 1) := by
  have := Int.lt_zpow_succ_log_self (b := 2) (by norm_num) x
  simpa using this

theorem ulp_eq (x : ℚ) : ulp x = (2 : ℚ) ^ Int.log 2 x / 2 ^ (52 : ℕ) := by
  unfold ulp
  rw [zpow_sub₀ (by norm_num : (2 : ℚ) ≠ 0)]
  norm_num

theorem scaled_ge {x : ℚ} (hx : 0 < x) : (2 : ℚ) ^ (52 : ℕ) ≤ x / ulp x := by
  rw [le_div_iff₀ (ulp_pos x), ulp_eq]
  have := two_zpow_log_le hx
  have h2 : (0 : ℚ) < 2 ^ (52 : ℕ) := by positivity
  rw [mul_div_cancel₀ _ (ne_of_gt h2)]
  exact this

theorem round_pos_nonneg {x : ℚ} (hx : 0 < x) : 0 ≤ round_pos x := by
  unfold round_pos
  have h1 : (0 : ℚ) ≤ x / ulp x := le_of_lt (div_pos hx (ulp_pos x))
  have h2 : (0 : Int) ≤ ⌊x / ulp x⌋ := Int.floor_nonneg.2 h1
  have h3 := floor_le_round_even (x / ulp x)
  have h4 : (0 : ℚ) ≤ (round_even (x / ulp x) : ℚ) := by exact_mod_cast le_trans h2 h3
  exact mul_nonneg h4 (le_of_lt (ulp_pos x))

theorem fl_zero : fl 0 = 0 := by simp [fl]

theorem fl_nonneg {q : ℚ} (hq : 0 ≤ q) : 0 ≤ fl q := by
  unfold fl
  split
  · exact le_refl _
  · rename_i h0
    have hpos : 0 < q := lt_of_le_of_ne hq (Ne.symm h0)
    rw [if_pos hpos]
    exact round_pos_nonneg hpos

theorem fl_neg (q : ℚ) : fl (-q) = -fl q := by
  unfold fl
  by_cases h0 : q = 0
  · simp [h0]
  · have h0' : -q ≠ 0 := neg_ne_zero.2 h0
    rw [if_neg h0, if_neg h0']
    by_cases hp : 0 < q
    · have hn : ¬ (0 < -q) := by linarith
      rw [if_pos hp, if_neg hn, neg_neg]
    · have hn : 0 < -q := by
        have : q < 0 := lt_of_le_of_ne (not_lt.1 hp) h0
        linarith
      rw [if_neg hp, if_pos hn, neg_neg]

/-- rounding error bound -/
theorem round_pos_le {x : ℚ} (hx : 0 < x) : round_pos x ≤ x * (1 + 1 / 2 ^ (53 : ℕ)) := by
  unfold round_pos
  have hu := ulp_pos x
  have h1 := round_even_le (x / ulp x)
  have h2 : (round_even (x / ulp x) : ℚ) * ulp x ≤ (x / ulp x + 1 / 2) * ulp x :=
    mul_le_mul_of_nonneg_right h1 (le_of_lt hu)
  have h3 : (x / ulp x + 1 / 2) * ulp x = x + ulp x / 2 := by
    field_simp
    ring
  have h4 : ulp x / 2 ≤ x * (1 / 2 ^ (53 : ℕ)) := by
    rw [ulp_eq]
    have := two_zpow_log_le hx
    have e : (2 : ℚ) ^ Int.log 2 x / 2 ^ (52 : ℕ) / 2 = 2 ^ Int.log 2 x * (1 / 2 ^ (53 : ℕ)) := by
      norm_num
      ring
    rw [e]
    exact mul_le_mul_of_nonneg_right this (by positivity)
  rw [h3] at h2
  linarith

theorem fl_le {x : ℚ} (hx : 0 ≤ x) : fl x ≤ x * (1 + 1 / 2 ^ (53 : ℕ)) := by
  unfold fl
  split
  · rename_i h0
    simp [h0]
  · rename_i h0
    have hpos : 0 < x := lt_of_le_of_ne hx (Ne.symm h0)
    rw [if_pos hpos]
    exact round_pos_le hpos

/-- the rounded value is at least the power of two below -/
theorem two_zpow_log_le_round_pos {x : ℚ} (hx : 0 < x) :
    (2 : ℚ) ^ Int.log 2 x ≤ round_pos x := by
  unfold round_pos
  have hu := ulp_pos x
  have h1 := scaled_ge hx
  have h2 : ((2 ^ (52 : ℕ) : Int) : ℚ) ≤ x / ulp x := by
    push_cast
    exact h1
  have h3 : (2 ^ (52 : ℕ) : Int) ≤ ⌊x / ulp x⌋ := Int.le_floor.2 h2
  have h4 := floor_le_round_even (x / ulp x)
  have h5 : ((2 : ℚ) ^ (52 : ℕ)) ≤ (round_even (x / ulp x) : ℚ) := by
    exact_mod_cast le_trans h3 h4
  have h6 : (2 : ℚ) ^ Int.log 2 x = 2 ^ (52 : ℕ) * ulp x := by
    rw [ulp_eq]
    field_simp
  rw [h6]
  exact mul_le_mul_of_nonneg_right h5 (le_of_lt hu)

theorem le_fl_of_two_pow_le {x : ℚ} (n : ℕ) (hx : (2 : ℚ) ^ n ≤ x) : (2 : ℚ) ^ n ≤ fl x := by
  have hpos : 0 < x := lt_of_lt_of_le (by positivity) hx
  unfold fl
  rw [if_neg (ne_of_gt hpos), if_pos hpos]
  have hlog : (n : Int) ≤ Int.log 2 x := by
    rw [← Int.zpow_le_iff_le_log (by norm_num) hpos]
    simpa using hx
  have h1 : (2 : ℚ) ^ n ≤ (2 : ℚ) ^ Int.log 2 x := by
    rw [← zpow_natCast]
    exact zpow_le_zpow_right₀ (by norm_num) hlog
  exact le_trans h1 (two_zpow_log_le_round_pos hpos)


theorem log_eq_of_bounds {x : ℚ} (hx : 0 < x) (e : Int) (h1 : (2 : ℚ) ^ e ≤ x)
    (h2 : x < (2 : ℚ) ^ (e + 1)) : Int.log 2 x = e := by
  have a : e ≤ Int.log 2 x := by
    rw [← Int.zpow_le_iff_le_log (by norm_num) hx]
    simpa using h1
  have b : Int.log 2 x < e + 1 := by
    rw [← Int.lt_zpow_iff_log_lt (by norm_num) hx]
    simpa using h2
  omega

theorem round_pos_eq {x : ℚ} (hx : 0 < x) (e : Int) (h1 : (2 : ℚ) ^ e ≤ x)
    (h2 : x < (2 : ℚ) ^ (e + 1)) :
    round_pos x = (round_even (x / (2 : ℚ) ^ (e - 52)) : ℚ) * (2 : ℚ) ^ (e - 52) := by
  unfold round_pos ulp
  rw [log_eq_of_bounds hx e h1 h2]

theorem round_even_of_lt_half {x : ℚ} (f : Int) (h1 : (f : ℚ) ≤ x) (h2 : x < f + 1 / 2) :
    round_even x = f := by
  have hf : ⌊x⌋ = f := by
    rw [Int.floor_eq_iff]
    constructor
    · exact h1
    · linarith
  unfold round_even
  rw [hf, if_pos (by linarith)]

theorem round_even_of_gt_half {x : ℚ} (f : Int) (h1 : (f : ℚ) + 1 / 2 < x) (h2 : x < f + 1) :
    round_even x = f + 1 := by
  have hf : ⌊x⌋ = f := by
    rw [Int.floor_eq_iff]
    constructor
    · linarith
    · exact h2
  unfold round_even
  rw [hf, if_neg (by linarith), if_pos (by linarith)]

theorem round_even_of_tie_even {x : ℚ} (f : Int) (h1 : x = f + 1 / 2) (h2 : f % 2 = 0) :
    round_even x = f := by
  have hf : ⌊x⌋ = f := by
    rw [Int.floor_eq_iff]
    constructor
    · linarith
    · linarith
  unfold round_even
  rw [hf, if_neg (by linarith), if_neg (by linarith), if_pos h2]

theorem round_pos_of_scaled_int {x : ℚ} (z : Int) (hz : x / ulp x = z) : round_pos x = x := by
  unfold round_pos
  rw [hz, round_even_intCast, ← hz]
  exact div_mul_cancel₀ x (ne_of_gt (ulp_pos x))

theorem round_pos_intCast {n : Int} (h0 : 0 < n) (h1 : n ≤ 2 ^ (53 : ℕ)) :
    round_pos (n : ℚ) = n := by
  have hx : (0 : ℚ) < (n : ℚ) := by exact_mod_cast h0
  have hle : (n : ℚ) ≤ 2 ^ (53 : ℕ) := by exact_mod_cast h1
  have he0 : (0 : Int) ≤ Int.log 2 (n : ℚ) := by
    rw [← Int.zpow_le_iff_le_log (by norm_num) hx]
    have : (1 : ℚ) ≤ (n : ℚ) := by exact_mod_cast h0
    simpa using this
  have he53 : Int.log 2 (n : ℚ) ≤ 53 := by
    by_contra hc
    have h54 : (54 : Int) ≤ Int.log 2 (n : ℚ) := by omega
    rw [← Int.zpow_le_iff_le_log (by norm_num) hx] at h54
    have : (2 : ℚ) ^ (54 : Int) ≤ 2 ^ (53 : ℕ) := le_trans (by simpa using h54) hle
    norm_num at this
  by_cases h52 : Int.log 2 (n : ℚ) ≤ 52
  · obtain ⟨m, hm⟩ := Int.eq_ofNat_of_zero_le (show (0 : Int) ≤ 52 - Int.log 2 (n : ℚ) by omega)
    apply round_pos_of_scaled_int (n * 2 ^ m)
    unfold ulp
    have e1 : Int.log 2 (n : ℚ) - 52 = -(m : Int) := by omega
    rw [e1, zpow_neg, zpow_natCast, div_inv_eq_mul]
    push_cast
    ring
  · have e53 : Int.log 2 (n : ℚ) = 53 := by omega
    have hge := two_zpow_log_le hx
    rw [e53] at hge
    have hge' : (2 : ℚ) ^ (53 : ℕ) ≤ (n : ℚ) := by
      rw [← zpow_natCast]
      exact hge
    have hn : (n : ℚ) = 2 ^ (53 : ℕ) := le_antisymm hle hge'
    apply round_pos_of_scaled_int (2 ^ (52 : ℕ))
    unfold ulp
    rw [e53, hn]
    norm_num

theorem fl_intCast {n : Int} (h1 : -2 ^ (53 : ℕ) ≤ n) (h2 : n ≤ 2 ^ (53 : ℕ)) :
    fl (n : ℚ) = n := by
  unfold fl
  by_cases h0 : n = 0
  · simp [h0]
  · have h0' : (n : ℚ) ≠ 0 := by exact_mod_cast h0
    rw [if_neg h0']
    by_cases hp : 0 < n
    · have hp' : (0 : ℚ) < (n : ℚ) := by exact_mod_cast hp
      rw [if_pos hp']
      exact round_pos_intCast hp h2
    · have hn : 0 < -n := by omega
      have hp' : ¬ (0 : ℚ) < (n : ℚ) := by
        intro h
        exact hp (by exact_mod_cast h)
      rw [if_neg hp']
      have := round_pos_intCast hn (by omega)
      push_cast at this
      rw [this, neg_neg]

end double

namespace ProportionalPolicy
namespace Scale

theorem within_01_range_some (x : ℚ) : within_01_range (some x) = true ↔ 0 ≤ x ∧ x ≤ 1 := by
  simp [within_01_range]

theorem within_01_range_iff (d : double) : within_01_range d = true ↔ In01 d := by
  cases d with
  | none => simp [within_01_range, In01]
  | some x => simp [within_01_range, In01]

theorem new_of_in01 {a b c d : ℚ} (ha : 0 ≤ a ∧ a ≤ 1) (hb : 0 ≤ b ∧ b ≤ 1)
    (hc : 0 ≤ c ∧ c ≤ 1) (hd : 0 ≤ d ∧ d ≤ 1) :
    new (some a) (some b) (some c) (some d) = ⟨a, b, c, d⟩ := by
  simp [new, within_01_range, ha, hb, hc, hd]

theorem new_of_not_in01 {soc max_cap mdr mcr : double}
    (h : ¬ (In01 soc ∧ In01 max_cap ∧ In01 mdr ∧ In01 mcr)) :
    new soc max_cap mdr mcr = ⟨0, 0, 0, 0⟩ := by
  unfold new
  rw [if_pos]
  by_contra hc
  apply h
  simp only [Bool.not_eq_true', Bool.not_eq_false, Bool.and_eq_true] at hc
  simpa [within_01_range_iff, and_assoc] using hc

theorem newProportion_zero : newProportion (some 0) = ⟨0, 0, 0, 0⟩ := by
  simp [newProportion, within_01_range]

theorem newProportion_one : newProportion (some 1) = ⟨1, 1, 1, 1⟩ := by
  simp [newProportion, within_01_range]

theorem new_inRange (soc max_cap mdr mcr : double) : InRange (new soc max_cap mdr mcr) := by
  by_cases h : In01 soc ∧ In01 max_cap ∧ In01 mdr ∧ In01 mcr
  · obtain ⟨⟨a, rfl, ha⟩, ⟨b, rfl, hb⟩, ⟨c, rfl, hc⟩, ⟨d, rfl, hd⟩⟩ := h
    rw [new_of_in01 ha hb hc hd]
    exact ⟨ha, hb, hc, hd⟩
  · rw [new_of_not_in01 h]
    simp [InRange]

theorem newProportion_inRange (proportion : double) : InRange (newProportion proportion) := by
  by_cases h : within_01_range proportion = true
  · obtain ⟨a, rfl, ha⟩ := (within_01_range_iff _).1 h
    simp [newProportion, h, InRange, ha]
  · simp [newProportion, h, InRange]

theorem sub_of_ge {a b : Scale} (ha : InRange a) (hb : InRange b) (h : GE a b) :
    sub a b = ⟨a.state_of_charge - b.state_of_charge, a.max_capacity - b.max_capacity,
      a.max_discharge_rate - b.max_discharge_rate, a.max_charge_rate - b.max_charge_rate⟩ := by
  obtain ⟨⟨a1, a1'⟩, ⟨a2, a2'⟩, ⟨a3, a3'⟩, ⟨a4, a4'⟩⟩ := ha
  obtain ⟨⟨b1, b1'⟩, ⟨b2, b2'⟩, ⟨b3, b3'⟩, ⟨b4, b4'⟩⟩ := hb
  unfold GE at h
  unfold sub
  rw [if_pos h]
  obtain ⟨h1, h2, h3, h4⟩ := h
  apply new_of_in01 <;> constructor <;> linarith

theorem sub_of_not_ge {a b : Scale} (h : ¬ GE a b) : sub a b = ⟨0, 0, 0, 0⟩ := by
  unfold GE at h
  unfold sub
  rw [if_neg h]
  exact newProportion_zero

theorem sub_inRange (a b : Scale) : InRange (sub a b) := by
  unfold sub
  split
  · exact new_inRange _ _ _ _
  · exact newProportion_inRange _

theorem add_eq_new (a b : Scale) :
    add a b = new
      (some (a.state_of_charge + b.state_of_charge))
      (some (a.max_capacity + b.max_capacity))
      (some (a.max_discharge_rate + b.max_discharge_rate))
      (some (a.max_charge_rate + b.max_charge_rate)) := by
  unfold add
  split
  · rfl
  · rename_i h
    rw [newProportion_zero]
    symm
    apply new_of_not_in01
    rintro ⟨h1, h2, h3, -⟩
    apply h
    have h4 : within_01_range (double.ofBool (decide (a.max_charge_rate ≥ b.max_charge_rate)))
        = true := by
      by_cases hc : a.max_charge_rate ≥ b.max_charge_rate <;>
        simp [double.ofBool, hc, within_01_range]
    simp [(within_01_range_iff _).2 h1, (within_01_range_iff _).2 h2,
      (within_01_range_iff _).2 h3, h4]

end Scale
end ProportionalPolicy

namespace StdMap

variable {K V : Type} [DecidableEq K]

theorem find_assign_self (m : List (K × V)) (k : K) (v : V) :
    find (assign m k v) k = some v := by
  induction m with
  | nil => simp [assign, find]
  | cons e t ih =>
    obtain ⟨k', v'⟩ := e
    by_cases h : k' = k
    · simp [assign, find, h]
    · simp [assign, find, h, ih]

theorem find_assign_ne (m : List (K × V)) {k k' : K} (v : V) (h : k' ≠ k) :
    find (assign m k v) k' = find m k' := by
  induction m with
  | nil => simp [assign, find, Ne.symm h]
  | cons e t ih =>
    obtain ⟨k0, v0⟩ := e
    by_cases h0 : k0 = k
    · subst h0
      simp [assign, find, Ne.symm h]
    · by_cases h1 : k0 = k'
      · subst h1
        simp [assign, find, h0]
      · simp [assign, find, h0, h1, ih]

theorem get_assign_self (m : List (K × V)) (k : K) (v d : V) :
    get (assign m k v) k d = v := by
  simp [get, find_assign_self]

theorem get_assign_ne (m : List (K × V)) {k k' : K} (v d : V) (h : k' ≠ k) :
    get (assign m k v) k' d = get m k' d := by
  simp [get, find_assign_ne m v h]

theorem find_touch_ne (m : List (K × V)) {k k' : K} (d : V) (h : k' ≠ k) :
    find (touch m k d) k' = find m k' := by
  unfold touch
  split
  · rfl
  · exact find_assign_ne m d h

theorem get_touch (m : List (K × V)) (k k' : K) (d : V) :
    get (touch m k d) k' d = get m k' d := by
  by_cases h : k' = k
  · subst h
    unfold touch
    split
    · rfl
    · rename_i hn
      simp [get, find_assign_self, hn]
  · simp [get, find_touch_ne m d h]

theorem assign_touch (m : List (K × V)) (k : K) (d v : V) :
    assign (touch m k d) k v = assign m k v := by
  unfold touch
  split
  · rfl
  · clear * -
    induction m with
    | nil => simp [assign]
    | cons e t ih =>
      obtain ⟨k0, v0⟩ := e
      by_cases h0 : k0 = k
      · simp [assign, h0]
      · simp [assign, h0, ih]

theorem mem_assign {m : List (K × V)} {k : K} {v : V} {e : K × V} (h : e ∈ assign m k v) :
    e = (k, v) ∨ e ∈ m := by
  induction m with
  | nil => simpa [assign] using h
  | cons e0 t ih =>
    obtain ⟨k0, v0⟩ := e0
    by_cases h0 : k0 = k
    · simp only [assign, h0, if_true, List.mem_cons] at h
      rcases h with h | h
      · exact Or.inl h
      · exact Or.inr (List.mem_cons_of_mem _ h)
    · simp only [assign, h0, if_false, List.mem_cons] at h
      rcases h with h | h
      · exact Or.inr (h ▸ List.mem_cons_self _ _)
      · rcases ih h with h | h
        · exact Or.inl h
        · exact Or.inr (List.mem_cons_of_mem _ h)

theorem mem_touch {m : List (K × V)} {k : K} {d : V} {e : K × V} (h : e ∈ touch m k d) :
    e = (k, d) ∨ e ∈ m := by
  unfold touch at h
  split at h
  · exact Or.inr h
  · exact mem_assign h

theorem mem_of_find {m : List (K × V)} {k : K} {v : V} (h : find m k = some v) :
    (k, v) ∈ m := by
  induction m with
  | nil => simp [find] at h
  | cons e t ih =>
    obtain ⟨k0, v0⟩ := e
    by_cases h0 : k0 = k
    · simp only [find, h0, if_true, Option.some.injEq] at h
      simp [h0, h]
    · simp only [find, h0, if_false] at h
      exact List.mem_cons_of_mem _ (ih h)

theorem filter_ne_of_not_mem_keys (m : List (K × V)) (k : K) (h : k ∉ keys m) :
    m.filter (fun e => decide (e.1 ≠ k)) = m := by
  induction m with
  | nil => rfl
  | cons e t ih =>
    obtain ⟨k0, v0⟩ := e
    simp only [keys, List.map_cons, List.mem_cons, not_or] at h
    have h0 : k0 ≠ k := fun hk => h.1 hk.symm
    simp only [List.filter_cons, h0, ne_eq, not_false_eq_true, decide_True, if_true]
    rw [ih h.2]

end StdMap

namespace ProportionalPolicy

theorem foldl_add_eq_sum (m : List (BatteryPtr × Int)) (acc : Int) :
    m.foldl (fun acc e => acc + e.2) acc = acc + current_sum m := by
  induction m generalizing acc with
  | nil => simp [current_sum]
  | cons e t ih =>
    simp only [List.foldl_cons, ih, current_sum, List.map_cons, List.sum_cons]
    ring

theorem current_sum_assign (m : List (BatteryPtr × Int)) (k : BatteryPtr) (v : Int) :
    current_sum (StdMap.assign m k v) = v + (current_sum m - StdMap.get m k 0) := by
  induction m with
  | nil => simp [StdMap.assign, current_sum, StdMap.get, StdMap.find]
  | cons e t ih =>
    obtain ⟨k0, v0⟩ := e
    by_cases h0 : k0 = k
    · simp [StdMap.assign, current_sum, StdMap.get, StdMap.find, h0]
    · have ih' := ih
      simp only [current_sum, StdMap.get] at ih'
      simp only [StdMap.assign, h0, if_false, current_sum, List.map_cons, List.sum_cons,
        StdMap.get, StdMap.find, ih']
      ring

theorem current_sum_assign_filter (m : List (BatteryPtr × Int)) (k : BatteryPtr) (v : Int)
    (h : (StdMap.keys m).Nodup) :
    current_sum (StdMap.assign m k v) =
      v + current_sum (m.filter (fun e => decide (e.1 ≠ k))) := by
  induction m with
  | nil => simp [StdMap.assign, current_sum]
  | cons e t ih =>
    obtain ⟨k0, v0⟩ := e
    simp only [StdMap.keys, List.map_cons, List.nodup_cons] at h
    by_cases h0 : k0 = k
    · subst h0
      have ht := StdMap.filter_ne_of_not_mem_keys t k0 h.1
      simp only [StdMap.assign, if_true, List.filter_cons, ne_eq, not_true_eq_false,
        decide_False, Bool.false_eq_true, if_false]
      rw [ht]
      simp [current_sum]
    · have ih' := ih h.2
      simp only [current_sum] at ih'
      simp only [StdMap.assign, h0, if_false, current_sum, List.map_cons, List.sum_cons,
        List.filter_cons, ne_eq, not_false_eq_true, decide_True, if_true, ih']
      ring

theorem get_battery_of_name_exists {d : BOSDirectory} {name : String}
    (h : d.name_exists name = true) : ∃ b : Nat, d.get_battery name = some b := by
  unfold BOSDirectory.name_exists at h
  unfold BOSDirectory.get_battery
  exact Option.isSome_iff_exists.1 h

theorem get_battery_of_not_name_exists {d : BOSDirectory} {name : String}
    (h : d.name_exists name = false) : d.get_battery name = none := by
  unfold BOSDirectory.name_exists at h
  unfold BOSDirectory.get_battery
  simpa using h

theorem fork_scale_inRange (a s : BatteryStatus) : Scale.InRange (fork_scale a s) :=
  Scale.new_inRange _ _ _ _

theorem touch_scales_inRange {m : List (BatteryPtr × Scale)} (k : BatteryPtr)
    (h : ∀ e ∈ m, Scale.InRange e.2) : ∀ e ∈ StdMap.touch m k Scale.dflt, Scale.InRange e.2 := by
  intro e he
  rcases StdMap.mem_touch he with rfl | he
  · exact Scale.newProportion_inRange _
  · exact h e he

theorem assign_scales_inRange {m : List (BatteryPtr × Scale)} (k : BatteryPtr) {v : Scale}
    (hv : Scale.InRange v) (h : ∀ e ∈ m, Scale.InRange e.2) :
    ∀ e ∈ StdMap.assign m k v, Scale.InRange e.2 := by
  intro e he
  rcases StdMap.mem_assign he with rfl | he
  · exact hv
  · exact h e he

theorem step_scales_inRange {p q : State} (hs : Step p q)
    (h : ∀ e ∈ p.scale_map, Scale.InRange e.2) : ∀ e ∈ q.scale_map, Scale.InRange e.2 := by
  cases hs with
  | fork_from w from_name child_name target_status =>
    unfold fork_from
    split
    · exact h
    · split
      · exact h
      · exact assign_scales_inRange _ (Scale.sub_inRange _ _)
          (touch_scales_inRange _ (assign_scales_inRange _ (fork_scale_inRange _ _) h))
  | schedule_set_current_of w child target gt when_to_set until_when =>
    unfold schedule_set_current_of
    simp only
    split
    · exact touch_scales_inRange _ h
    · exact touch_scales_inRange _ h
  | get_status_of w child =>
    exact touch_scales_inRange _ h

/-- Every Scale stored in the `scale_map` of a reachable state has its fields in `[0,1]`. -/
theorem reachable_scales_inRange {p : State} (hp : Reachable p) :
    ∀ e ∈ p.scale_map, Scale.InRange e.2 := by
  induction hp with
  | create src_name directory first_battery =>
    exact assign_scales_inRange _ (Scale.newProportion_inRange _) (by simp)
  | step _ hs ih => exact step_scales_inRange hs ih

/-- In a reachable state the expression `scale_map[k]` has its fields in `[0,1]`. -/
theorem reachable_get_inRange {p : State} (hp : Reachable p) (k : BatteryPtr) :
    Scale.InRange (StdMap.get p.scale_map k Scale.dflt) := by
  unfold StdMap.get
  cases hf : StdMap.find p.scale_map k with
  | none => exact Scale.newProportion_inRange (some 0)
  | some v => exact reachable_scales_inRange hp _ (StdMap.mem_of_find hf)

end ProportionalPolicy

/-! ## Evaluation of the scenarios -/

namespace double

theorem ofInt_eq (n : Int) (h1 : -2 ^ (53 : ℕ) ≤ n) (h2 : n ≤ 2 ^ (53 : ℕ)) :
    ofInt n = (n : ℚ) :=
  fl_intCast h1 h2

theorem mul_ofInt_one (n : Int) (h1 : -2 ^ (53 : ℕ) ≤ n) (h2 : n ≤ 2 ^ (53 : ℕ)) :
    mul (ofInt n) 1 = (n : ℚ) := by
  unfold mul
  rw [ofInt_eq n h1 h2, mul_one]
  exact fl_intCast h1 h2

theorem mul_nonneg_of_nonneg {n : Int} {x : ℚ} (hn : 0 ≤ n) (hx : 0 ≤ x) :
    0 ≤ mul (ofInt n) x := by
  unfold mul ofInt
  exact fl_nonneg (mul_nonneg (fl_nonneg (by exact_mod_cast hn)) hx)

theorem fl_one_tenth : fl ((1 : ℚ) / 10) = 3602879701896397 / 36028797018963968 := by
  unfold fl
  rw [if_neg (by norm_num), if_pos (by norm_num),
    round_pos_eq (by norm_num) (-4) (by norm_num) (by norm_num),
    round_even_of_gt_half 7205759403792793 (by norm_num) (by norm_num)]
  norm_num

theorem fl_two_pow_53_succ : fl (9007199254740993 : ℚ) = 9007199254740992 := by
  unfold fl
  rw [if_neg (by norm_num), if_pos (by norm_num),
    round_pos_eq (by norm_num) 53 (by norm_num) (by norm_num),
    round_even_of_tie_even 4503599627370496 (by norm_num) (by decide)]
  norm_num

theorem div_1000_10000 : div 1000 10000 = some Scenario.tenth := by
  unfold div
  rw [if_neg (by norm_num), ofInt_eq 1000 (by norm_num) (by norm_num),
    ofInt_eq 10000 (by norm_num) (by norm_num)]
  have e : (((1000 : Int) : ℚ)) / ((10000 : Int) : ℚ) = 1 / 10 := by norm_num
  rw [e, fl_one_tenth]
  rfl

theorem div_10000_10000 : div 10000 10000 = some 1 := by
  unfold div
  rw [if_neg (by norm_num), ofInt_eq 10000 (by norm_num) (by norm_num)]
  have e : (((10000 : Int) : ℚ)) / ((10000 : Int) : ℚ) = ((1 : Int) : ℚ) := by norm_num
  rw [e, fl_intCast (by norm_num) (by norm_num)]
  norm_num

end double

namespace ProportionalPolicy

theorem scenario_small_scale :
    fork_scale (fork_actual_status Scenario.small_request Scenario.full_status)
      Scenario.full_status =
      ⟨Scenario.tenth, Scenario.tenth, Scenario.tenth, Scenario.tenth⟩ := by
  have h : fork_scale (fork_actual_status Scenario.small_request Scenario.full_status)
      Scenario.full_status = Scale.new (double.div 1000 10000) (double.div 1000 10000)
        (double.div 1000 10000) (double.div 1000 10000) := by
    rfl
  rw [h, double.div_1000_10000]
  exact Scale.new_of_in01 (by norm_num [Scenario.tenth]) (by norm_num [Scenario.tenth])
    (by norm_num [Scenario.tenth]) (by norm_num [Scenario.tenth])

theorem scenario_full_scale :
    fork_scale (fork_actual_status Scenario.full_status Scenario.full_status)
      Scenario.full_status = ⟨1, 1, 1, 1⟩ := by
  have h : fork_scale (fork_actual_status Scenario.full_status Scenario.full_status)
      Scenario.full_status = Scale.new (double.div 10000 10000) (double.div 10000 10000)
        (double.div 10000 10000) (double.div 10000 10000) := by
    rfl
  rw [h, double.div_10000_10000]
  exact Scale.new_of_in01 (by norm_num) (by norm_num) (by norm_num) (by norm_num)

theorem scenario_policy_scale_map :
    Scenario.policy.scale_map = [(some 1, ⟨1, 1, 1, 1⟩)] := by
  simp [Scenario.policy, create, StdMap.assign, Scale.newProportion_one]

theorem scenario_scale_A :
    StdMap.get Scenario.policy.scale_map (some 1) Scale.dflt = ⟨1, 1, 1, 1⟩ := by
  rw [scenario_policy_scale_map]
  simp [StdMap.get, StdMap.find]

/-- With a scale of 1 in every field and source limits of 10000 mA, a target is refused exactly
when it lies outside `[-10000, 10000]`. -/
theorem scenario_guard (t : Int) (h1 : -2 ^ (53 : ℕ) ≤ t) (h2 : t ≤ 2 ^ (53 : ℕ)) :
    target_too_high (Scenario.world.get_status Scenario.policy.source)
      (StdMap.get Scenario.policy.scale_map (some 1) Scale.dflt) t ↔
      (10000 < t ∨ t < -10000) := by
  rw [scenario_scale_A]
  show target_too_high Scenario.full_status ⟨1, 1, 1, 1⟩ t ↔ _
  unfold target_too_high
  simp only [Scenario.full_status]
  rw [double.mul_ofInt_one 10000 (by norm_num) (by norm_num), double.ofInt_eq t h1 h2,
    double.ofInt_eq (-t) (by omega) (by omega), gt_iff_lt, gt_iff_lt, Int.cast_lt, Int.cast_lt]
  omega

theorem scenario_guard_halves (k : BatteryPtr) (t : Int) (h1 : -2 ^ (53 : ℕ) ≤ t)
    (h2 : t ≤ 2 ^ (53 : ℕ)) :
    target_too_high (Scenario.world.get_status Scenario.policy_halves.source)
      (StdMap.get Scenario.policy_halves.scale_map k Scale.dflt) t →
      (k ≠ some 1 ∧ k ≠ none) ∨ 5000 < t ∨ t < -5000 := by
  intro h
  by_cases hk : k = some 1 ∨ k = none
  · right
    have hs : StdMap.get Scenario.policy_halves.scale_map k Scale.dflt =
        ⟨1/2, 1/2, 1/2, 1/2⟩ := by
      rcases hk with rfl | rfl <;> simp [Scenario.policy_halves, StdMap.get, StdMap.find]
    rw [hs] at h
    have hm : double.mul (double.ofInt 10000) (1 / 2) = ((5000 : Int) : ℚ) := by
      unfold double.mul
      rw [double.ofInt_eq 10000 (by norm_num) (by norm_num)]
      have e : ((10000 : Int) : ℚ) * (1 / 2) = ((5000 : Int) : ℚ) := by norm_num
      rw [e]
      exact double.fl_intCast (by norm_num) (by norm_num)
    have h' : target_too_high Scenario.full_status ⟨1/2, 1/2, 1/2, 1/2⟩ t := h
    unfold target_too_high at h'
    simp only [Scenario.full_status] at h'
    rw [hm, double.ofInt_eq t h1 h2, double.ofInt_eq (-t) (by omega) (by omega), gt_iff_lt,
      gt_iff_lt, Int.cast_lt, Int.cast_lt] at h'
    omega
  · left
    exact ⟨fun h => hk (Or.inl h), fun h => hk (Or.inr h)⟩

theorem fl_five_six_tenths : double.fl (5 * Scenario.six_tenths) = 3 := by
  unfold double.fl
  rw [if_neg (by norm_num [Scenario.six_tenths]), if_pos (by norm_num [Scenario.six_tenths]),
    double.round_pos_eq (by norm_num [Scenario.six_tenths]) 1
      (by norm_num [Scenario.six_tenths]) (by norm_num [Scenario.six_tenths]),
    double.round_even_of_gt_half 6755399441055743 (by norm_num [Scenario.six_tenths])
      (by norm_num [Scenario.six_tenths])]
  norm_num

end ProportionalPolicy

/-! ## Scale: construction and arithmetic -/

namespace ProportionalPolicy
namespace Scale

/-- C1. Both constructors establish the range invariant: the constructed Scale has every field
in `[0,1]`; when every argument is in `[0,1]` the fields are the arguments (the single
proportion is copied into all four fields); when some argument is outside `[0,1]` (or is not
finite) all four fields are 0. -/
theorem Scale_range_invariant (soc max_cap mdr mcr proportion : double) :
    (InRange (new soc max_cap mdr mcr) ∧
      ((In01 soc ∧ In01 max_cap ∧ In01 mdr ∧ In01 mcr) →
        some (new soc max_cap mdr mcr).state_of_charge = soc ∧
        some (new soc max_cap mdr mcr).max_capacity = max_cap ∧
        some (new soc max_cap mdr mcr).max_discharge_rate = mdr ∧
        some (new soc max_cap mdr mcr).max_charge_rate = mcr) ∧
      (¬ (In01 soc ∧ In01 max_cap ∧ In01 mdr ∧ In01 mcr) →
        new soc max_cap mdr mcr = ⟨0, 0, 0, 0⟩)) ∧
    (InRange (newProportion proportion) ∧
      (In01 proportion →
        some (newProportion proportion).state_of_charge = proportion ∧
        some (newProportion proportion).max_capacity = proportion ∧
        some (newProportion proportion).max_discharge_rate = proportion ∧
        some (newProportion proportion).max_charge_rate = proportion) ∧
      (¬ In01 proportion → newProportion proportion = ⟨0, 0, 0, 0⟩)) := by
  refine ⟨⟨new_inRange _ _ _ _, ?_, new_of_not_in01⟩, ⟨newProportion_inRange _, ?_, ?_⟩⟩
  · rintro ⟨⟨a, rfl, ha⟩, ⟨b, rfl, hb⟩, ⟨c, rfl, hc⟩, ⟨d, rfl, hd⟩⟩
    rw [new_of_in01 ha hb hc hd]
    exact ⟨rfl, rfl, rfl, rfl⟩
  · rintro ⟨a, rfl, ha⟩
    simp [newProportion, within_01_range, ha]
  · intro h
    have : within_01_range proportion = false := by
      rw [← Bool.not_eq_true, within_01_range_iff]
      exact h
    simp [newProportion, this]

/-- C4. Round trip of carve-out and merge-back: for Scales `a` and `b` with fields in `[0,1]`
and `a ≥ b` in every field, `(a - b) + b` equals `a` in every field. -/
theorem Scale_sub_add_cancel (a b : Scale) (ha : InRange a) (hb : InRange b) (h : GE a b) :
    add (sub a b) b = a := by
  rw [sub_of_ge ha hb h, add_eq_new]
  obtain ⟨a1, a2, a3, a4⟩ := ha
  simp only [sub_add_cancel]
  exact new_of_in01 a1 a2 a3 a4

/-- Witness of C4 at `a = (1, 3/4, 1/2, 1/2)` and `b = (1/4, 1/2, 0, 1/2)`. -/
theorem Scale_sub_add_cancel_witness :
    InRange ⟨1, 3/4, 1/2, 1/2⟩ ∧ InRange ⟨1/4, 1/2, 0, 1/2⟩ ∧
      GE ⟨1, 3/4, 1/2, 1/2⟩ ⟨1/4, 1/2, 0, 1/2⟩ ∧
      add (sub ⟨1, 3/4, 1/2, 1/2⟩ ⟨1/4, 1/2, 0, 1/2⟩) ⟨1/4, 1/2, 0, 1/2⟩ = ⟨1, 3/4, 1/2, 1/2⟩ :=
  ⟨by norm_num [InRange], by norm_num [InRange], by norm_num [GE],
    Scale_sub_add_cancel ⟨1, 3/4, 1/2, 1/2⟩ ⟨1/4, 1/2, 0, 1/2⟩
      (by norm_num [InRange]) (by norm_num [InRange]) (by norm_num [GE])⟩

end Scale
end ProportionalPolicy

/-! ## ProportionalPolicy: scheduling -/

namespace ProportionalPolicy

/-- C5. Aggregate conservation: when `schedule_set_current_of` accepts a call, the current it
passes to the source's `schedule_set_current` is the sum of all entries of `current_map` after
the call, which is the child's new target plus every other child's stored target, and
`is_greater_than_target`, `when_to_set` and `until_when` are passed on unchanged. -/
theorem schedule_set_current_of_aggregate (p : State) (w : World) (child : BatteryPtr)
    (target_current_mA : Int) (is_greater_than_target : Bool)
    (when_to_set until_when : timepoint_t)
    (accepted : ¬ target_too_high (w.get_status p.source)
      (StdMap.get p.scale_map child Scale.dflt) target_current_mA) :
    (schedule_set_current_of p w child target_current_mA is_greater_than_target
        when_to_set until_when).calls =
      [Call.schedule_set_current p.source
        (current_sum (schedule_set_current_of p w child target_current_mA
          is_greater_than_target when_to_set until_when).policy.current_map)
        is_greater_than_target when_to_set until_when] ∧
    current_sum (schedule_set_current_of p w child target_current_mA
        is_greater_than_target when_to_set until_when).policy.current_map =
      target_current_mA + (current_sum p.current_map - StdMap.get p.current_map child 0) ∧
    ((StdMap.keys p.current_map).Nodup →
      current_sum (schedule_set_current_of p w child target_current_mA
          is_greater_than_target when_to_set until_when).policy.current_map =
        target_current_mA +
          current_sum (p.current_map.filter (fun e => decide (e.1 ≠ child)))) := by
  have hc : (schedule_set_current_of p w child target_current_mA is_greater_than_target
      when_to_set until_when).policy.current_map =
      StdMap.assign p.current_map child target_current_mA := by
    simp only [schedule_set_current_of, if_neg accepted]
  refine ⟨?_, ?_, ?_⟩
  · simp only [schedule_set_current_of, if_neg accepted, foldl_add_eq_sum, zero_add]
  · rw [hc]
    exact current_sum_assign _ _ _
  · rw [hc]
    exact current_sum_assign_filter _ _ _

/-- Witness of C5, the scenario of the specification: one child at scale `(1,1,1,1)` requests
5000 mA and 5000 is passed to the source. -/
theorem schedule_set_current_of_aggregate_witness :
    ¬ target_too_high (Scenario.world.get_status Scenario.policy.source)
        (StdMap.get Scenario.policy.scale_map (some 1) Scale.dflt) 5000 ∧
    (schedule_set_current_of Scenario.policy Scenario.world (some 1) 5000 true 10 20).calls =
      [Call.schedule_set_current (some 0) 5000 true 10 20] := by
  have h : ¬ target_too_high (Scenario.world.get_status Scenario.policy.source)
      (StdMap.get Scenario.policy.scale_map (some 1) Scale.dflt) 5000 := by
    rw [scenario_guard 5000 (by norm_num) (by norm_num)]
    omega
  refine ⟨h, ?_⟩
  have key := schedule_set_current_of_aggregate Scenario.policy Scenario.world (some 1) 5000
    true 10 20 h
  rw [key.1, key.2.1]
  simp [Scenario.policy, create, StdMap.assign, StdMap.get, StdMap.find, current_sum,
    Scenario.directory, BOSDirectory.get_battery]

end ProportionalPolicy

namespace ProportionalPolicy

/-- C6. `schedule_set_current_of` rejects a call (sends nothing to the source) exactly when
`target_mA > source.max_discharging_current_mA * scale[child].max_discharge_rate` or
`-target_mA > source.max_charging_current_mA * scale[child].max_charge_rate`, with the source
limits read during the call and the two comparisons evaluated as the source evaluates them, in
`double` (the integers converted, the products rounded); a rejected call leaves `current_map`
unchanged and sends nothing, an accepted call sets `current_map[child]` to the target and
changes no other entry. -/
theorem schedule_set_current_of_rejection (p : State) (w : World) (child : BatteryPtr)
    (target_current_mA : Int) (is_greater_than_target : Bool)
    (when_to_set until_when : timepoint_t) :
    ((schedule_set_current_of p w child target_current_mA is_greater_than_target
        when_to_set until_when).calls = [] ↔
      (double.ofInt target_current_mA >
          double.mul (double.ofInt (w.get_status p.source).max_discharging_current_mA)
            (StdMap.get p.scale_map child Scale.dflt).max_discharge_rate ∨
        double.ofInt (-target_current_mA) >
          double.mul (double.ofInt (w.get_status p.source).max_charging_current_mA)
            (StdMap.get p.scale_map child Scale.dflt).max_charge_rate)) ∧
    ((double.ofInt target_current_mA >
          double.mul (double.ofInt (w.get_status p.source).max_discharging_current_mA)
            (StdMap.get p.scale_map child Scale.dflt).max_discharge_rate ∨
        double.ofInt (-target_current_mA) >
          double.mul (double.ofInt (w.get_status p.source).max_charging_current_mA)
            (StdMap.get p.scale_map child Scale.dflt).max_charge_rate) →
      (schedule_set_current_of p w child target_current_mA is_greater_than_target
          when_to_set until_when).policy.current_map = p.current_map ∧
      (schedule_set_current_of p w child target_current_mA is_greater_than_target
          when_to_set until_when).calls = []) ∧
    (¬ (double.ofInt target_current_mA >
          double.mul (double.ofInt (w.get_status p.source).max_discharging_current_mA)
            (StdMap.get p.scale_map child Scale.dflt).max_discharge_rate ∨
        double.ofInt (-target_current_mA) >
          double.mul (double.ofInt (w.get_status p.source).max_charging_current_mA)
            (StdMap.get p.scale_map child Scale.dflt).max_charge_rate) →
      StdMap.find (schedule_set_current_of p w child target_current_mA is_greater_than_target
          when_to_set until_when).policy.current_map child = some target_current_mA ∧
      ∀ other : BatteryPtr, other ≠ child →
        StdMap.find (schedule_set_current_of p w child target_current_mA
          is_greater_than_target when_to_set until_when).policy.current_map other =
          StdMap.find p.current_map other) := by
  by_cases h : target_too_high (w.get_status p.source)
      (StdMap.get p.scale_map child Scale.dflt) target_current_mA
  · have h' := h
    unfold target_too_high at h'
    have hcalls : (schedule_set_current_of p w child target_current_mA is_greater_than_target
        when_to_set until_when).calls = [] := by
      simp only [schedule_set_current_of, if_pos h]
    have hmap : (schedule_set_current_of p w child target_current_mA is_greater_than_target
        when_to_set until_when).policy.current_map = p.current_map := by
      simp only [schedule_set_current_of, if_pos h]
    exact ⟨⟨fun _ => h', fun _ => hcalls⟩, fun _ => ⟨hmap, hcalls⟩, fun hn => absurd h' hn⟩
  · have h' := h
    unfold target_too_high at h'
    have hcalls : (schedule_set_current_of p w child target_current_mA is_greater_than_target
        when_to_set until_when).calls ≠ [] := by
      simp only [schedule_set_current_of, if_neg h]
      simp
    have hmap : (schedule_set_current_of p w child target_current_mA is_greater_than_target
        when_to_set until_when).policy.current_map =
        StdMap.assign p.current_map child target_current_mA := by
      simp only [schedule_set_current_of, if_neg h]
    refine ⟨⟨fun hc => absurd hc hcalls, fun hc => absurd hc h'⟩, fun hc => absurd hc h',
      fun _ => ?_⟩
    rw [hmap]
    exact ⟨StdMap.find_assign_self _ _ _, fun other ho => StdMap.find_assign_ne _ _ ho⟩

/-- C7, counterexample. With one child at scale `(1,1,1,1)` and source limits of 10000 mA, the
request of 20000 mA is rejected, the request of 5000 mA is accepted, and both calls return the
same code. -/
theorem schedule_set_current_of_same_code :
    (schedule_set_current_of Scenario.policy Scenario.world (some 1) 20000 true 10 20).calls
        = [] ∧
    (schedule_set_current_of Scenario.policy Scenario.world (some 1) 5000 true 10 20).calls
        ≠ [] ∧
    (schedule_set_current_of Scenario.policy Scenario.world (some 1) 20000 true 10 20).ret =
      (schedule_set_current_of Scenario.policy Scenario.world (some 1) 5000 true 10 20).ret := by
  have h1 : target_too_high (Scenario.world.get_status Scenario.policy.source)
      (StdMap.get Scenario.policy.scale_map (some 1) Scale.dflt) 20000 := by
    rw [scenario_guard 20000 (by norm_num) (by norm_num)]
    omega
  have h2 : ¬ target_too_high (Scenario.world.get_status Scenario.policy.source)
      (StdMap.get Scenario.policy.scale_map (some 1) Scale.dflt) 5000 := by
    rw [scenario_guard 5000 (by norm_num) (by norm_num)]
    omega
  refine ⟨?_, ?_, ?_⟩
  · simp only [schedule_set_current_of, if_pos h1]
  · simp only [schedule_set_current_of, if_neg h2]
    simp
  · simp only [schedule_set_current_of, if_pos h1, if_neg h2]

/-- C7, amended. `schedule_set_current_of` returns 0 on every call, rejected or accepted. -/
theorem schedule_set_current_of_returns_zero (p : State) (w : World) (child : BatteryPtr)
    (target_current_mA : Int) (is_greater_than_target : Bool)
    (when_to_set until_when : timepoint_t) :
    (schedule_set_current_of p w child target_current_mA is_greater_than_target
      when_to_set until_when).ret = 0 := by
  unfold schedule_set_current_of
  simp only
  split <;> rfl

end ProportionalPolicy

/-! ## ProportionalPolicy: fork -/

namespace ProportionalPolicy

theorem fork_from_of_names {p : State} {w : World} {from_name child_name : String}
    (target_status : BatteryStatus)
    (hfrom : w.directory.name_exists from_name = true)
    (hchild : w.directory.name_exists child_name = false) :
    fork_from p w from_name child_name target_status =
      { policy :=
          { p with
            scale_map :=
              StdMap.assign
                (StdMap.touch
                  (StdMap.assign p.scale_map (w.directory.get_battery child_name)
                    (fork_scale
                      (fork_actual_status target_status
                        (w.get_status (w.directory.get_battery from_name)))
                      (w.get_status p.source)))
                  (w.directory.get_battery from_name) Scale.dflt)
                (w.directory.get_battery from_name)
                ((StdMap.get
                  (StdMap.assign p.scale_map (w.directory.get_battery child_name)
                    (fork_scale
                      (fork_actual_status target_status
                        (w.get_status (w.directory.get_battery from_name)))
                      (w.get_status p.source)))
                  (w.directory.get_battery from_name) Scale.dflt).sub
                  (fork_scale
                    (fork_actual_status target_status
                      (w.get_status (w.directory.get_battery from_name)))
                    (w.get_status p.source)))
            current_map := StdMap.assign p.current_map (w.directory.get_battery child_name) 0 }
        ret := fork_actual_status target_status
          (w.get_status (w.directory.get_battery from_name))
        calls := [Call.reset_estimated_soc (w.directory.get_battery from_name)] } := by
  simp [fork_from, hfrom, hchild]

theorem donor_ne_child {w : World} {from_name child_name : String}
    (hfrom : w.directory.name_exists from_name = true)
    (hchild : w.directory.name_exists child_name = false) :
    w.directory.get_battery from_name ≠ w.directory.get_battery child_name := by
  obtain ⟨b, hb⟩ := get_battery_of_name_exists hfrom
  rw [hb, get_battery_of_not_name_exists hchild]
  simp

/-- C8. Fork clipping: when `from_name` is registered and `child_name` is not, each of the four
resource fields of the status that `fork_from` returns is the minimum of the requested field
and the donor's field, its voltage is the donor's and its current is 0. -/
theorem fork_from_clipping (p : State) (w : World) (from_name child_name : String)
    (target_status : BatteryStatus)
    (hfrom : w.directory.name_exists from_name = true)
    (hchild : w.directory.name_exists child_name = false) :
    (fork_from p w from_name child_name target_status).ret.state_of_charge_mAh =
      min target_status.state_of_charge_mAh
        (w.get_status (w.directory.get_battery from_name)).state_of_charge_mAh ∧
    (fork_from p w from_name child_name target_status).ret.max_capacity_mAh =
      min target_status.max_capacity_mAh
        (w.get_status (w.directory.get_battery from_name)).max_capacity_mAh ∧
    (fork_from p w from_name child_name target_status).ret.max_charging_current_mA =
      min target_status.max_charging_current_mA
        (w.get_status (w.directory.get_battery from_name)).max_charging_current_mA ∧
    (fork_from p w from_name child_name target_status).ret.max_discharging_current_mA =
      min target_status.max_discharging_current_mA
        (w.get_status (w.directory.get_battery from_name)).max_discharging_current_mA ∧
    (fork_from p w from_name child_name target_status).ret.voltage_mV =
      (w.get_status (w.directory.get_battery from_name)).voltage_mV ∧
    (fork_from p w from_name child_name target_status).ret.current_mA = 0 := by
  rw [fork_from_of_names target_status hfrom hchild]
  exact ⟨rfl, rfl, rfl, rfl, rfl, rfl⟩

/-- Witness of C8: forking `B` from `A` with a request of 1000 in every resource field, while
`A` reports 10000 in each, returns 1000 in each, the donor's voltage and current 0. -/
theorem fork_from_clipping_witness :
    Scenario.world.directory.name_exists "A" = true ∧
    Scenario.world.directory.name_exists "B" = false ∧
    (fork_from Scenario.policy Scenario.world "A" "B" Scenario.small_request).ret =
      { voltage_mV := 3700, current_mA := 0, state_of_charge_mAh := 1000,
        max_capacity_mAh := 1000, max_charging_current_mA := 1000,
        max_discharging_current_mA := 1000 } := by
  have hA : Scenario.world.directory.name_exists "A" = true := by decide
  have hB : Scenario.world.directory.name_exists "B" = false := by decide
  have key := fork_from_clipping Scenario.policy Scenario.world "A" "B"
    Scenario.small_request hA hB
  obtain ⟨k1, k2, k3, k4, k5, k6⟩ := key
  refine ⟨hA, hB, ?_⟩
  have e : ∀ a b : BatteryStatus, a.voltage_mV = b.voltage_mV → a.current_mA = b.current_mA →
      a.state_of_charge_mAh = b.state_of_charge_mAh →
      a.max_capacity_mAh = b.max_capacity_mAh →
      a.max_charging_current_mA = b.max_charging_current_mA →
      a.max_discharging_current_mA = b.max_discharging_current_mA → a = b := by
    intro a b h1 h2 h3 h4 h5 h6
    cases a; cases b; simp_all
  apply e
  · rw [k5]; rfl
  · rw [k6]
  · rw [k1]; decide
  · rw [k2]; decide
  · rw [k3]; decide
  · rw [k4]; decide

end ProportionalPolicy

namespace ProportionalPolicy

/-- C9. Quota conservation: when `fork_from` passes the name checks and the carved scale is at
most the donor's scale in every field, then after the call the donor's entry and the new
child's entry of `scale_map` add up, field by field, to the donor's entry before the call.  The
donor's scale before the call is taken with fields in `[0,1]`, as every constructed Scale has;
the new child's entry is the one stored under the pointer `get_battery(child_name)`. -/
theorem fork_from_quota_conservation (p : State) (w : World) (from_name child_name : String)
    (target_status : BatteryStatus)
    (hfrom : w.directory.name_exists from_name = true)
    (hchild : w.directory.name_exists child_name = false)
    (hrange : Scale.InRange
      (StdMap.get p.scale_map (w.directory.get_battery from_name) Scale.dflt))
    (hle : Scale.GE (StdMap.get p.scale_map (w.directory.get_battery from_name) Scale.dflt)
      (fork_scale
        (fork_actual_status target_status (w.get_status (w.directory.get_battery from_name)))
        (w.get_status p.source))) :
    ∃ donor_after child_after : Scale,
      StdMap.find (fork_from p w from_name child_name target_status).policy.scale_map
        (w.directory.get_battery from_name) = some donor_after ∧
      StdMap.find (fork_from p w from_name child_name target_status).policy.scale_map
        (w.directory.get_battery child_name) = some child_after ∧
      donor_after.state_of_charge + child_after.state_of_charge =
        (StdMap.get p.scale_map (w.directory.get_battery from_name)
          Scale.dflt).state_of_charge ∧
      donor_after.max_capacity + child_after.max_capacity =
        (StdMap.get p.scale_map (w.directory.get_battery from_name) Scale.dflt).max_capacity ∧
      donor_after.max_discharge_rate + child_after.max_discharge_rate =
        (StdMap.get p.scale_map (w.directory.get_battery from_name)
          Scale.dflt).max_discharge_rate ∧
      donor_after.max_charge_rate + child_after.max_charge_rate =
        (StdMap.get p.scale_map (w.directory.get_battery from_name)
          Scale.dflt).max_charge_rate := by
  have hne := donor_ne_child hfrom hchild
  rw [fork_from_of_names target_status hfrom hchild]
  simp only
  rw [StdMap.assign_touch, StdMap.get_assign_ne _ _ _ hne,
    Scale.sub_of_ge hrange (fork_scale_inRange _ _) hle]
  refine ⟨_, fork_scale
    (fork_actual_status target_status (w.get_status (w.directory.get_battery from_name)))
    (w.get_status p.source), StdMap.find_assign_self _ _ _, ?_, ?_, ?_, ?_, ?_⟩
  · rw [StdMap.find_assign_ne _ _ (Ne.symm hne)]
    exact StdMap.find_assign_self _ _ _
  all_goals simp only [sub_add_cancel]

/-- Witness of C9: forking `B` from `A` (scale `(1,1,1,1)`) with a request of 1000 in every
resource field while the source reports 10000 in each. -/
theorem fork_from_quota_conservation_witness :
    Scenario.world.directory.name_exists "A" = true ∧
    Scenario.world.directory.name_exists "B" = false ∧
    Scale.InRange (StdMap.get Scenario.policy.scale_map
      (Scenario.world.directory.get_battery "A") Scale.dflt) ∧
    Scale.GE (StdMap.get Scenario.policy.scale_map
        (Scenario.world.directory.get_battery "A") Scale.dflt)
      (fork_scale
        (fork_actual_status Scenario.small_request
          (Scenario.world.get_status (Scenario.world.directory.get_battery "A")))
        (Scenario.world.get_status Scenario.policy.source)) ∧
    ∃ donor_after child_after : Scale,
      StdMap.find (fork_from Scenario.policy Scenario.world "A" "B"
        Scenario.small_request).policy.scale_map
        (Scenario.world.directory.get_battery "A") = some donor_after ∧
      StdMap.find (fork_from Scenario.policy Scenario.world "A" "B"
        Scenario.small_request).policy.scale_map
        (Scenario.world.directory.get_battery "B") = some child_after ∧
      donor_after.state_of_charge + child_after.state_of_charge =
        (StdMap.get Scenario.policy.scale_map (Scenario.world.directory.get_battery "A")
          Scale.dflt).state_of_charge ∧
      donor_after.max_capacity + child_after.max_capacity =
        (StdMap.get Scenario.policy.scale_map (Scenario.world.directory.get_battery "A")
          Scale.dflt).max_capacity ∧
      donor_after.max_discharge_rate + child_after.max_discharge_rate =
        (StdMap.get Scenario.policy.scale_map (Scenario.world.directory.get_battery "A")
          Scale.dflt).max_discharge_rate ∧
      donor_after.max_charge_rate + child_after.max_charge_rate =
        (StdMap.get Scenario.policy.scale_map (Scenario.world.directory.get_battery "A")
          Scale.dflt).max_charge_rate := by
  have hA : Scenario.world.directory.name_exists "A" = true := by decide
  have hB : Scenario.world.directory.name_exists "B" = false := by decide
  have hd : StdMap.get Scenario.policy.scale_map
      (Scenario.world.directory.get_battery "A") Scale.dflt = ⟨1, 1, 1, 1⟩ := by
    have : Scenario.world.directory.get_battery "A" = some 1 := by decide
    rw [this, scenario_policy_scale_map]
    simp [StdMap.get, StdMap.find]
  have hrange : Scale.InRange (StdMap.get Scenario.policy.scale_map
      (Scenario.world.directory.get_battery "A") Scale.dflt) := by
    rw [hd]; norm_num [Scale.InRange]
  have hle : Scale.GE (StdMap.get Scenario.policy.scale_map
        (Scenario.world.directory.get_battery "A") Scale.dflt)
      (fork_scale
        (fork_actual_status Scenario.small_request
          (Scenario.world.get_status (Scenario.world.directory.get_battery "A")))
        (Scenario.world.get_status Scenario.policy.source)) := by
    rw [hd]
    show Scale.GE _ (fork_scale (fork_actual_status Scenario.small_request
      Scenario.full_status) Scenario.full_status)
    rw [scenario_small_scale]
    norm_num [Scale.GE, Scenario.tenth]
  exact ⟨hA, hB, hrange, hle,
    fork_from_quota_conservation Scenario.policy Scenario.world "A" "B"
      Scenario.small_request hA hB hrange hle⟩

/-- C10, the code at a failing input.  From the freshly constructed policy (first child `A`
with scale 1 in every field), one `fork_from("src", "B", ...)` whose donor holds no quota in
this policy stores the carved scale `(1,1,1,1)` for the new child although the subtraction
from the donor's scale underflows: the reached state has the entries `A -> 1`, new child -> 1
and `src -> 0`, and every field of `scale_map` sums to 2. -/
theorem fork_from_scale_sum_exceeds_one :
    Reachable (fork_from Scenario.policy Scenario.world "src" "B"
      Scenario.full_status).policy ∧
    (fork_from Scenario.policy Scenario.world "src" "B" Scenario.full_status).policy.scale_map =
      [(some 1, ⟨1, 1, 1, 1⟩), (none, ⟨1, 1, 1, 1⟩), (some 0, ⟨0, 0, 0, 0⟩)] ∧
    scale_sum (fun s => s.state_of_charge) (fork_from Scenario.policy Scenario.world "src" "B"
      Scenario.full_status).policy.scale_map = 2 ∧
    scale_sum (fun s => s.max_capacity) (fork_from Scenario.policy Scenario.world "src" "B"
      Scenario.full_status).policy.scale_map = 2 ∧
    scale_sum (fun s => s.max_discharge_rate) (fork_from Scenario.policy Scenario.world "src"
      "B" Scenario.full_status).policy.scale_map = 2 ∧
    scale_sum (fun s => s.max_charge_rate) (fork_from Scenario.policy Scenario.world "src" "B"
      Scenario.full_status).policy.scale_map = 2 := by
  have hsrc : Scenario.world.directory.name_exists "src" = true := by decide
  have hB : Scenario.world.directory.name_exists "B" = false := by decide
  have gsrc : Scenario.world.directory.get_battery "src" = some 0 := by decide
  have gB : Scenario.world.directory.get_battery "B" = none := by decide
  have hmap : (fork_from Scenario.policy Scenario.world "src" "B"
      Scenario.full_status).policy.scale_map =
      [(some 1, ⟨1, 1, 1, 1⟩), (none, ⟨1, 1, 1, 1⟩), (some 0, ⟨0, 0, 0, 0⟩)] := by
    rw [fork_from_of_names Scenario.full_status hsrc hB]
    simp only [gsrc, gB]
    show StdMap.assign (StdMap.touch (StdMap.assign Scenario.policy.scale_map none
      (fork_scale (fork_actual_status Scenario.full_status Scenario.full_status)
        Scenario.full_status)) (some 0) Scale.dflt) (some 0)
      ((StdMap.get (StdMap.assign Scenario.policy.scale_map none
        (fork_scale (fork_actual_status Scenario.full_status Scenario.full_status)
          Scenario.full_status)) (some 0) Scale.dflt).sub
        (fork_scale (fork_actual_status Scenario.full_status Scenario.full_status)
          Scenario.full_status)) = _
    rw [scenario_full_scale, scenario_policy_scale_map, StdMap.assign_touch]
    have hg : StdMap.get (StdMap.assign [((some 1 : BatteryPtr), (⟨1, 1, 1, 1⟩ : Scale))] none
        ⟨1, 1, 1, 1⟩) (some 0) Scale.dflt = ⟨0, 0, 0, 0⟩ := by
      simp [StdMap.get, StdMap.find, StdMap.assign, Scale.dflt, Scale.newProportion_zero]
    rw [hg, Scale.sub_of_not_ge (by norm_num [Scale.GE])]
    simp [StdMap.assign]
  refine ⟨Reachable.step (Reachable.create "src" Scenario.directory (some 1))
    (Step.fork_from _ Scenario.world "src" "B" Scenario.full_status), hmap, ?_, ?_, ?_, ?_⟩ <;>
  · rw [hmap]
    norm_num [scale_sum]

end ProportionalPolicy

/-! ## ProportionalPolicy: registration of a forked child -/

namespace ProportionalPolicy

theorem scenario_fork_A_B :
    (fork_from Scenario.policy Scenario.world "A" "B" Scenario.small_request).policy =
      Scenario.policy_after_fork := by
  unfold Scenario.policy_after_fork
  have hA : Scenario.world.directory.name_exists "A" = true := by decide
  have hB : Scenario.world.directory.name_exists "B" = false := by decide
  have gA : Scenario.world.directory.get_battery "A" = some 1 := by decide
  have gB : Scenario.world.directory.get_battery "B" = none := by decide
  rw [fork_from_of_names Scenario.small_request hA hB]
  simp only [gA, gB]
  show ({ source := Scenario.policy.source
          current_map := StdMap.assign Scenario.policy.current_map none 0
          scale_map := StdMap.assign (StdMap.touch (StdMap.assign Scenario.policy.scale_map none
            (fork_scale (fork_actual_status Scenario.small_request Scenario.full_status)
              Scenario.full_status)) (some 1) Scale.dflt) (some 1)
            ((StdMap.get (StdMap.assign Scenario.policy.scale_map none
              (fork_scale (fork_actual_status Scenario.small_request Scenario.full_status)
                Scenario.full_status)) (some 1) Scale.dflt).sub
              (fork_scale (fork_actual_status Scenario.small_request Scenario.full_status)
                Scenario.full_status))
          children := Scenario.policy.children } : State) = _
  rw [scenario_small_scale, scenario_policy_scale_map, StdMap.assign_touch]
  have hg : StdMap.get (StdMap.assign [((some 1 : BatteryPtr), (⟨1, 1, 1, 1⟩ : Scale))] none
      ⟨Scenario.tenth, Scenario.tenth, Scenario.tenth, Scenario.tenth⟩) (some 1) Scale.dflt =
      ⟨1, 1, 1, 1⟩ := by
    simp [StdMap.get, StdMap.find, StdMap.assign]
  rw [hg, Scale.sub_of_ge (by norm_num [Scale.InRange])
    (by norm_num [Scale.InRange, Scenario.tenth]) (by norm_num [Scale.GE, Scenario.tenth])]
  have hsrc : Scenario.policy.source = some 0 := by decide
  have hcm : Scenario.policy.current_map = [(some 1, 0)] := by decide
  have hch : Scenario.policy.children = [some 1] := by decide
  rw [hsrc, hcm, hch]
  simp [StdMap.assign]

/-- C11, the code at a failing input.  Forking `B` from `A` passes the name checks, yet
afterwards the children list returned by `get_children` is still `[A]`, with as many elements
as before the call, and the carved scale and the current 0 are stored under the null pointer,
which is what `get_battery("B")` yields for the unregistered name. -/
theorem fork_from_child_not_registered :
    Scenario.world.directory.name_exists "A" = true ∧
    Scenario.world.directory.name_exists "B" = false ∧
    Scenario.world.directory.get_battery "B" = none ∧
    (get_children (fork_from Scenario.policy Scenario.world "A" "B"
      Scenario.small_request).policy).2 = [some 1] ∧
    (get_children (fork_from Scenario.policy Scenario.world "A" "B"
      Scenario.small_request).policy).2.length = (get_children Scenario.policy).2.length ∧
    StdMap.keys (fork_from Scenario.policy Scenario.world "A" "B"
      Scenario.small_request).policy.scale_map = [some 1, none] ∧
    StdMap.keys (fork_from Scenario.policy Scenario.world "A" "B"
      Scenario.small_request).policy.current_map = [some 1, none] := by
  rw [scenario_fork_A_B]
  refine ⟨by decide, by decide, by decide, rfl, rfl, rfl, rfl⟩

/-- C12. When `from_name` is not registered in the directory or `child_name` already is,
`fork_from` leaves the whole policy state as it was, sends no command to any battery (the
donor's estimated state of charge is not reset) and returns the requested status unchanged. -/
theorem fork_from_name_check_fails (p : State) (w : World) (from_name child_name : String)
    (target_status : BatteryStatus)
    (h : w.directory.name_exists from_name = false ∨
      w.directory.name_exists child_name = true) :
    (fork_from p w from_name child_name target_status).policy = p ∧
    (fork_from p w from_name child_name target_status).calls = [] ∧
    (fork_from p w from_name child_name target_status).ret = target_status := by
  unfold fork_from
  by_cases hf : w.directory.name_exists from_name = true
  · rcases h with h | h
    · rw [h] at hf
      exact absurd hf (by decide)
    · simp [hf, h]
  · have hf' : w.directory.name_exists from_name = false := by simpa using hf
    simp [hf']

/-- Witness of C12: forking from the unregistered name `X` changes nothing. -/
theorem fork_from_name_check_fails_witness :
    (Scenario.world.directory.name_exists "X" = false ∨
      Scenario.world.directory.name_exists "B" = true) ∧
    (fork_from Scenario.policy Scenario.world "X" "B" Scenario.small_request).policy =
      Scenario.policy ∧
    (fork_from Scenario.policy Scenario.world "X" "B" Scenario.small_request).calls = [] ∧
    (fork_from Scenario.policy Scenario.world "X" "B" Scenario.small_request).ret =
      Scenario.small_request :=
  ⟨Or.inl (by decide),
    fork_from_name_check_fails Scenario.policy Scenario.world "X" "B" Scenario.small_request
      (Or.inl (by decide))⟩

/-- C13. When `fork_from` passes the name checks, the scale stored for the new child is
`Scale(actual.state_of_charge / source.state_of_charge, actual.max_capacity /
source.max_capacity, actual.max_discharging_current / source.max_discharging_current,
actual.max_charging_current / source.max_charging_current)`, where `actual` is the returned
status and `source` is the status of the policy's source battery, not of the donor. -/
theorem fork_from_child_scale (p : State) (w : World) (from_name child_name : String)
    (target_status : BatteryStatus)
    (hfrom : w.directory.name_exists from_name = true)
    (hchild : w.directory.name_exists child_name = false) :
    StdMap.find (fork_from p w from_name child_name target_status).policy.scale_map
        (w.directory.get_battery child_name) =
      some (Scale.new
        (double.div (fork_from p w from_name child_name target_status).ret.state_of_charge_mAh
          (w.get_status p.source).state_of_charge_mAh)
        (double.div (fork_from p w from_name child_name target_status).ret.max_capacity_mAh
          (w.get_status p.source).max_capacity_mAh)
        (double.div
          (fork_from p w from_name child_name target_status).ret.max_discharging_current_mA
          (w.get_status p.source).max_discharging_current_mA)
        (double.div
          (fork_from p w from_name child_name target_status).ret.max_charging_current_mA
          (w.get_status p.source).max_charging_current_mA)) := by
  have hne := donor_ne_child hfrom hchild
  rw [fork_from_of_names target_status hfrom hchild]
  simp only
  rw [StdMap.assign_touch, StdMap.find_assign_ne _ _ (Ne.symm hne), StdMap.find_assign_self]
  rfl

/-- Witness of C13, the scenario of the specification: forking `B` from `A` (scale 1.0) with a
request of 1000 mAh while source and donor report 10000 mAh gives `B` the state-of-charge
scale `tenth`, the `double` nearest to 1/10 (it exceeds 1/10 by less than `10 ^ -17`), and
reduces that of `A` from 1 to `1 - tenth`. -/
theorem fork_from_child_scale_witness :
    Scenario.world.directory.name_exists "A" = true ∧
    Scenario.world.directory.name_exists "B" = false ∧
    StdMap.find (fork_from Scenario.policy Scenario.world "A" "B"
        Scenario.small_request).policy.scale_map (Scenario.world.directory.get_battery "B") =
      some (Scale.new
        (double.div (fork_from Scenario.policy Scenario.world "A" "B"
            Scenario.small_request).ret.state_of_charge_mAh
          (Scenario.world.get_status Scenario.policy.source).state_of_charge_mAh)
        (double.div (fork_from Scenario.policy Scenario.world "A" "B"
            Scenario.small_request).ret.max_capacity_mAh
          (Scenario.world.get_status Scenario.policy.source).max_capacity_mAh)
        (double.div (fork_from Scenario.policy Scenario.world "A" "B"
            Scenario.small_request).ret.max_discharging_current_mA
          (Scenario.world.get_status Scenario.policy.source).max_discharging_current_mA)
        (double.div (fork_from Scenario.policy Scenario.world "A" "B"
            Scenario.small_request).ret.max_charging_current_mA
          (Scenario.world.get_status Scenario.policy.source).max_charging_current_mA)) ∧
    StdMap.find Scenario.policy.scale_map (some 1) = some ⟨1, 1, 1, 1⟩ ∧
    StdMap.find (fork_from Scenario.policy Scenario.world "A" "B"
        Scenario.small_request).policy.scale_map none =
      some ⟨Scenario.tenth, Scenario.tenth, Scenario.tenth, Scenario.tenth⟩ ∧
    StdMap.find (fork_from Scenario.policy Scenario.world "A" "B"
        Scenario.small_request).policy.scale_map (some 1) =
      some ⟨1 - Scenario.tenth, 1 - Scenario.tenth, 1 - Scenario.tenth, 1 - Scenario.tenth⟩ ∧
    (1 : ℚ) / 10 ≤ Scenario.tenth ∧ Scenario.tenth < 1 / 10 + 1 / 10 ^ 17 := by
  have hA : Scenario.world.directory.name_exists "A" = true := by decide
  have hB : Scenario.world.directory.name_exists "B" = false := by decide
  refine ⟨hA, hB, fork_from_child_scale Scenario.policy Scenario.world "A" "B"
    Scenario.small_request hA hB, ?_, ?_, ?_, ?_, ?_⟩
  · rw [scenario_policy_scale_map]
    simp [StdMap.find]
  · rw [scenario_fork_A_B]
    simp [Scenario.policy_after_fork, StdMap.find]
  · rw [scenario_fork_A_B]
    simp [Scenario.policy_after_fork, StdMap.find]
  · norm_num [Scenario.tenth]
  · norm_num [Scenario.tenth]

end ProportionalPolicy

/-! ## ProportionalPolicy: construction, underflowing forks, reads -/

namespace ProportionalPolicy

/-- C16. A freshly constructed policy has exactly one child, the given first battery:
`children` is `[first]`, `scale_map` is the single entry `first -> (1, 1, 1, 1)` and
`current_map` is the single entry `first -> 0`. -/
theorem create_single_child (src_name : String) (directory : BOSDirectory)
    (first_battery : BatteryPtr) :
    (create src_name directory first_battery).children = [first_battery] ∧
    (get_children (create src_name directory first_battery)).2 = [first_battery] ∧
    (create src_name directory first_battery).scale_map = [(first_battery, ⟨1, 1, 1, 1⟩)] ∧
    (create src_name directory first_battery).current_map = [(first_battery, 0)] := by
  refine ⟨rfl, rfl, ?_, rfl⟩
  simp only [create, StdMap.assign, Scale.newProportion_one]

theorem fork_from_scale_map_of_underflow (p : State) (w : World)
    (from_name child_name : String) (target_status : BatteryStatus)
    (hfrom : w.directory.name_exists from_name = true)
    (hchild : w.directory.name_exists child_name = false)
    (hlt : ¬ Scale.GE (StdMap.get p.scale_map (w.directory.get_battery from_name) Scale.dflt)
      (fork_scale
        (fork_actual_status target_status (w.get_status (w.directory.get_battery from_name)))
        (w.get_status p.source))) :
    (fork_from p w from_name child_name target_status).policy.scale_map =
      StdMap.assign
        (StdMap.assign p.scale_map (w.directory.get_battery child_name)
          (fork_scale
            (fork_actual_status target_status
              (w.get_status (w.directory.get_battery from_name)))
            (w.get_status p.source)))
        (w.directory.get_battery from_name) ⟨0, 0, 0, 0⟩ ∧
    (fork_from p w from_name child_name target_status).policy.current_map =
      StdMap.assign p.current_map (w.directory.get_battery child_name) 0 := by
  have hne := donor_ne_child hfrom hchild
  rw [fork_from_of_names target_status hfrom hchild]
  refine ⟨?_, rfl⟩
  simp only
  rw [StdMap.assign_touch, StdMap.get_assign_ne _ _ _ hne, Scale.sub_of_not_ge hlt]

/-- C17, the code at two failing inputs.  (a) On the freshly constructed policy,
`fork_from("src", "B", ...)` passes the name checks and carves `(1,1,1,1)` from a donor whose
scale is `(0,0,0,0)`; afterwards `scale_map` and `current_map` both hold an entry for the new
child and differ from what they were.  (b) After `B` was forked from `A`, which left `A` the
scale `1 - tenth` (about 9/10), `fork_from("A", "C", ...)` carves `(1,1,1,1)`; afterwards the
donor's scale is `(0,0,0,0)` and the carved scale is stored. -/
theorem fork_from_underflow_not_rolled_back :
    (Scenario.world.directory.name_exists "src" = true ∧
      Scenario.world.directory.name_exists "B" = false ∧
      ¬ Scale.GE (StdMap.get Scenario.policy.scale_map (some 0) Scale.dflt)
        (fork_scale (fork_actual_status Scenario.full_status
          (Scenario.world.get_status (some 0)))
          (Scenario.world.get_status Scenario.policy.source)) ∧
      Scenario.policy.scale_map = [(some 1, ⟨1, 1, 1, 1⟩)] ∧
      Scenario.policy.current_map = [(some 1, 0)] ∧
      (fork_from Scenario.policy Scenario.world "src" "B"
        Scenario.full_status).policy.scale_map =
        [(some 1, ⟨1, 1, 1, 1⟩), (none, ⟨1, 1, 1, 1⟩), (some 0, ⟨0, 0, 0, 0⟩)] ∧
      (fork_from Scenario.policy Scenario.world "src" "B"
        Scenario.full_status).policy.current_map = [(some 1, 0), (none, 0)]) ∧
    (Scenario.world.directory.name_exists "A" = true ∧
      Scenario.world.directory.name_exists "C" = false ∧
      ¬ Scale.GE (StdMap.get Scenario.policy_after_fork.scale_map (some 1) Scale.dflt)
        (fork_scale (fork_actual_status Scenario.full_status
          (Scenario.world.get_status (some 1)))
          (Scenario.world.get_status Scenario.policy_after_fork.source)) ∧
      Scenario.policy_after_fork.scale_map =
        [(some 1, ⟨1 - Scenario.tenth, 1 - Scenario.tenth, 1 - Scenario.tenth,
            1 - Scenario.tenth⟩),
          (none, ⟨Scenario.tenth, Scenario.tenth, Scenario.tenth, Scenario.tenth⟩)] ∧
      (fork_from Scenario.policy_after_fork Scenario.world "A" "C"
        Scenario.full_status).policy.scale_map =
        [(some 1, ⟨0, 0, 0, 0⟩), (none, ⟨1, 1, 1, 1⟩)]) := by
  have hsrc : Scenario.world.directory.name_exists "src" = true := by decide
  have hA : Scenario.world.directory.name_exists "A" = true := by decide
  have hB : Scenario.world.directory.name_exists "B" = false := by decide
  have hC : Scenario.world.directory.name_exists "C" = false := by decide
  have gsrc : Scenario.world.directory.get_battery "src" = some 0 := by decide
  have gA : Scenario.world.directory.get_battery "A" = some 1 := by decide
  have gB : Scenario.world.directory.get_battery "B" = none := by decide
  have gC : Scenario.world.directory.get_battery "C" = none := by decide
  have hfull : ∀ b src : BatteryPtr, fork_scale (fork_actual_status Scenario.full_status
      (Scenario.world.get_status b)) (Scenario.world.get_status src) = ⟨1, 1, 1, 1⟩ :=
    fun _ _ => scenario_full_scale
  have h0 : StdMap.get Scenario.policy.scale_map (some 0) Scale.dflt = ⟨0, 0, 0, 0⟩ := by
    rw [scenario_policy_scale_map]
    simp [StdMap.get, StdMap.find, Scale.dflt, Scale.newProportion_zero]
  have h1 : StdMap.get Scenario.policy_after_fork.scale_map (some 1) Scale.dflt =
      ⟨1 - Scenario.tenth, 1 - Scenario.tenth, 1 - Scenario.tenth, 1 - Scenario.tenth⟩ := by
    simp [Scenario.policy_after_fork, StdMap.get, StdMap.find]
  have hlt0 : ¬ Scale.GE (StdMap.get Scenario.policy.scale_map (some 0) Scale.dflt)
      (fork_scale (fork_actual_status Scenario.full_status
        (Scenario.world.get_status (some 0)))
        (Scenario.world.get_status Scenario.policy.source)) := by
    rw [h0, hfull]
    norm_num [Scale.GE]
  have hlt1 : ¬ Scale.GE (StdMap.get Scenario.policy_after_fork.scale_map (some 1) Scale.dflt)
      (fork_scale (fork_actual_status Scenario.full_status
        (Scenario.world.get_status (some 1)))
        (Scenario.world.get_status Scenario.policy_after_fork.source)) := by
    rw [h1, hfull]
    norm_num [Scale.GE, Scenario.tenth]
  have k0 := fork_from_scale_map_of_underflow Scenario.policy Scenario.world "src" "B"
    Scenario.full_status hsrc hB (by rw [gsrc]; exact hlt0)
  have k1 := fork_from_scale_map_of_underflow Scenario.policy_after_fork Scenario.world
    "A" "C" Scenario.full_status hA hC (by rw [gA]; exact hlt1)
  rw [gsrc, gB, hfull, scenario_policy_scale_map] at k0
  rw [gA, gC, hfull] at k1
  refine ⟨⟨hsrc, hB, hlt0, scenario_policy_scale_map, by decide, ?_, ?_⟩,
    ⟨hA, hC, hlt1, rfl, ?_⟩⟩
  · rw [k0.1]
    simp [StdMap.assign]
  · rw [k0.2]
    decide
  · rw [k1.1]
    simp [Scenario.policy_after_fork, StdMap.assign]

/-- C15, the code at a failing input.  On the freshly constructed policy, whose maps hold the
single key `A`, `get_status_of` for a battery without a quota entry returns a status and
leaves `scale_map` and `current_map` with a second key: evaluating `scale_map[child]` and
`current_map[child]` inserts the default Scale and the current 0. -/
theorem get_status_of_inserts_entries :
    StdMap.keys Scenario.policy.scale_map = [some 1] ∧
    StdMap.keys Scenario.policy.current_map = [some 1] ∧
    (get_status_of Scenario.policy Scenario.world (some 7)).status.voltage_mV = 3700 ∧
    (get_status_of Scenario.policy Scenario.world (some 7)).policy.scale_map =
      [(some 1, ⟨1, 1, 1, 1⟩), (some 7, ⟨0, 0, 0, 0⟩)] ∧
    (get_status_of Scenario.policy Scenario.world (some 7)).policy.current_map =
      [(some 1, 0), (some 7, 0)] ∧
    (get_status_of Scenario.policy Scenario.world (some 7)).policy.scale_map ≠
      Scenario.policy.scale_map ∧
    (get_status_of Scenario.policy Scenario.world (some 7)).policy.current_map ≠
      Scenario.policy.current_map := by
  have hs : (get_status_of Scenario.policy Scenario.world (some 7)).policy.scale_map =
      [(some 1, ⟨1, 1, 1, 1⟩), (some 7, ⟨0, 0, 0, 0⟩)] := by
    show StdMap.touch Scenario.policy.scale_map (some 7) Scale.dflt = _
    rw [scenario_policy_scale_map]
    simp [StdMap.touch, StdMap.find, StdMap.assign, Scale.dflt, Scale.newProportion_zero]
  have hc : (get_status_of Scenario.policy Scenario.world (some 7)).policy.current_map =
      [(some 1, 0), (some 7, 0)] := by
    decide
  refine ⟨?_, by decide, ?_, hs, hc, ?_, ?_⟩
  · rw [scenario_policy_scale_map]
    rfl
  · rfl
  · rw [hs, scenario_policy_scale_map]
    simp
  · rw [hc]
    decide

end ProportionalPolicy

/-! ## ProportionalPolicy: the status a child sees -/

namespace ProportionalPolicy

theorem to_int64_of_nonneg {q : ℚ} (h : 0 ≤ q) : to_int64 q = ⌊q⌋ := by
  unfold to_int64
  rw [Rat.floor_def, Int.tdiv_eq_ediv (Rat.num_nonneg.2 h) (Int.ofNat_nonneg _)]

theorem to_int64_neg (q : ℚ) : to_int64 (-q) = -to_int64 q := by
  unfold to_int64
  rw [Rat.neg_num, Rat.neg_den, Int.neg_tdiv]

theorem to_int64_eq_truncate (q : ℚ) : to_int64 q = truncate q := by
  unfold truncate
  split
  · rename_i h
    exact to_int64_of_nonneg h
  · rename_i h
    have hq : 0 ≤ -q := by linarith [not_le.1 h]
    have h1 := to_int64_neg (-q)
    rw [neg_neg, to_int64_of_nonneg hq] at h1
    rw [h1, Int.floor_neg, neg_neg]

theorem schedule_calls_eq_nil_iff (p : State) (w : World) (child : BatteryPtr)
    (target_current_mA : Int) (is_greater_than_target : Bool)
    (when_to_set until_when : timepoint_t) :
    (schedule_set_current_of p w child target_current_mA is_greater_than_target
        when_to_set until_when).calls = [] ↔
      target_too_high (w.get_status p.source) (StdMap.get p.scale_map child Scale.dflt)
        target_current_mA := by
  by_cases h : target_too_high (w.get_status p.source)
      (StdMap.get p.scale_map child Scale.dflt) target_current_mA
  · have hc : (schedule_set_current_of p w child target_current_mA is_greater_than_target
        when_to_set until_when).calls = [] := by
      simp only [schedule_set_current_of, if_pos h]
    exact ⟨fun _ => h, fun _ => hc⟩
  · have hc : (schedule_set_current_of p w child target_current_mA is_greater_than_target
        when_to_set until_when).calls ≠ [] := by
      simp only [schedule_set_current_of, if_neg h]
      simp
    exact ⟨fun hn => absurd hn hc, fun hn => absurd hn h⟩

/-- C14. The status that `get_status_of(child)` returns has `voltage_mV` equal to the source's
voltage, `current_mA` equal to `current_map[child]`, and `max_capacity_mAh`,
`max_charging_current_mA`, `max_discharging_current_mA` equal to the source's field times
`scale_map[child].max_capacity`, `.max_charge_rate`, `.max_discharge_rate`, truncated to an
integer; the product is the `double` product of the source (the field converted to `double`,
the result rounded). -/
theorem get_status_of_fields (p : State) (w : World) (child : BatteryPtr) :
    (get_status_of p w child).status.voltage_mV = (w.get_status p.source).voltage_mV ∧
    (get_status_of p w child).status.current_mA = StdMap.get p.current_map child 0 ∧
    (get_status_of p w child).status.max_capacity_mAh =
      truncate (double.mul (double.ofInt (w.get_status p.source).max_capacity_mAh)
        (StdMap.get p.scale_map child Scale.dflt).max_capacity) ∧
    (get_status_of p w child).status.max_charging_current_mA =
      truncate (double.mul (double.ofInt (w.get_status p.source).max_charging_current_mA)
        (StdMap.get p.scale_map child Scale.dflt).max_charge_rate) ∧
    (get_status_of p w child).status.max_discharging_current_mA =
      truncate (double.mul (double.ofInt (w.get_status p.source).max_discharging_current_mA)
        (StdMap.get p.scale_map child Scale.dflt).max_discharge_rate) :=
  ⟨rfl, rfl, to_int64_eq_truncate _, to_int64_eq_truncate _, to_int64_eq_truncate _⟩

/-- Witness of C14: with the source reporting 5 in every field and the child holding the scale
`six_tenths`, the three limits returned are 3, the exact products `5 * six_tenths` lying just
below 3 and rounding to 3 before the truncation. -/
theorem get_status_of_fields_witness :
    (get_status_of Scenario.policy_six_tenths Scenario.five_world (some 1)).status =
      { voltage_mV := 3700, current_mA := 0, state_of_charge_mAh := 5, max_capacity_mAh := 3,
        max_charging_current_mA := 3, max_discharging_current_mA := 3 } ∧
    5 * Scenario.six_tenths < 3 := by
  have key := get_status_of_fields Scenario.policy_six_tenths Scenario.five_world (some 1)
  have hs : StdMap.get Scenario.policy_six_tenths.scale_map (some 1) Scale.dflt =
      ⟨Scenario.six_tenths, Scenario.six_tenths, Scenario.six_tenths, Scenario.six_tenths⟩ := by
    simp [Scenario.policy_six_tenths, StdMap.get, StdMap.find]
  have hm : double.mul (double.ofInt 5) Scenario.six_tenths = 3 := by
    unfold double.mul
    rw [double.ofInt_eq 5 (by norm_num) (by norm_num)]
    exact fl_five_six_tenths
  have ht : truncate (3 : ℚ) = 3 := by
    unfold truncate
    rw [if_pos (by norm_num)]
    exact Int.floor_natCast 3
  have hsoc : (get_status_of Scenario.policy_six_tenths Scenario.five_world
      (some 1)).status.state_of_charge_mAh = 5 := by
    have hd : double.div 10000 10000 = some 1 := double.div_10000_10000
    have h5 : double.mul 1 (double.ofInt 5) = ((5 : Int) : ℚ) := by
      unfold double.mul
      rw [double.ofInt_eq 5 (by norm_num) (by norm_num), one_mul]
      exact double.fl_intCast (by norm_num) (by norm_num)
    have h55 : to_int64 ((5 : Int) : ℚ) = 5 := by
      rw [to_int64_of_nonneg (by norm_num)]
      exact Int.floor_intCast 5
    show double_to_int64 Scenario.five_world
      ((double.div 10000 10000).map (fun q => double.mul q (double.ofInt 5))) = 5
    rw [hd]
    show to_int64 (double.mul 1 (double.ofInt 5)) = 5
    rw [h5, h55]
  obtain ⟨k1, k2, k3, k4, k5⟩ := key
  rw [hs] at k3 k4 k5
  have e3 : (get_status_of Scenario.policy_six_tenths Scenario.five_world
      (some 1)).status.max_capacity_mAh = 3 := by
    rw [k3]
    show truncate (double.mul (double.ofInt 5) Scenario.six_tenths) = 3
    rw [hm, ht]
  have e4 : (get_status_of Scenario.policy_six_tenths Scenario.five_world
      (some 1)).status.max_charging_current_mA = 3 := by
    rw [k4]
    show truncate (double.mul (double.ofInt 5) Scenario.six_tenths) = 3
    rw [hm, ht]
  have e5 : (get_status_of Scenario.policy_six_tenths Scenario.five_world
      (some 1)).status.max_discharging_current_mA = 3 := by
    rw [k5]
    show truncate (double.mul (double.ofInt 5) Scenario.six_tenths) = 3
    rw [hm, ht]
  have ext : ∀ a b : BatteryStatus, a.voltage_mV = b.voltage_mV → a.current_mA = b.current_mA →
      a.state_of_charge_mAh = b.state_of_charge_mAh →
      a.max_capacity_mAh = b.max_capacity_mAh →
      a.max_charging_current_mA = b.max_charging_current_mA →
      a.max_discharging_current_mA = b.max_discharging_current_mA → a = b := by
    intro a b h1 h2 h3 h4 h5 h6
    cases a; cases b; simp_all
  refine ⟨ext _ _ ?_ ?_ hsoc e3 e4 e5, by norm_num [Scenario.six_tenths]⟩
  · rw [k1]
    rfl
  · rw [k2]
    rfl

end ProportionalPolicy

/-! ## ProportionalPolicy: the limits seen and the limits enforced -/

namespace ProportionalPolicy

theorem scenario_big_guard :
    ¬ target_too_high (Scenario.big_world.get_status Scenario.policy.source)
      (StdMap.get Scenario.policy.scale_map (some 1) Scale.dflt) 9007199254740993 := by
  rw [scenario_scale_A]
  show ¬ target_too_high Scenario.big_status ⟨1, 1, 1, 1⟩ 9007199254740993
  unfold target_too_high
  simp only [Scenario.big_status]
  have hm : double.mul (double.ofInt 9007199254740992) 1 = 9007199254740992 := by
    rw [double.mul_ofInt_one 9007199254740992 (by norm_num) (by norm_num)]
    norm_num
  have h1 : double.ofInt 9007199254740993 = 9007199254740992 := by
    unfold double.ofInt
    have e : ((9007199254740993 : Int) : ℚ) = 9007199254740993 := by norm_num
    rw [e, double.fl_two_pow_53_succ]
  have h2 : double.ofInt (-9007199254740993) = -9007199254740992 := by
    unfold double.ofInt
    have e : ((-9007199254740993 : Int) : ℚ) = -9007199254740993 := by norm_num
    rw [e, double.fl_neg, double.fl_two_pow_53_succ]
  rw [hm, h1, h2]
  norm_num

theorem scenario_big_status_limit :
    (get_status_of Scenario.policy Scenario.big_world
      (some 1)).status.max_discharging_current_mA = 9007199254740992 := by
  show to_int64 (double.mul (double.ofInt 9007199254740992)
    (StdMap.get Scenario.policy.scale_map (some 1) Scale.dflt).max_discharge_rate) = _
  rw [scenario_scale_A]
  show to_int64 (double.mul (double.ofInt 9007199254740992) 1) = _
  rw [double.mul_ofInt_one 9007199254740992 (by norm_num) (by norm_num),
    to_int64_of_nonneg (by norm_num)]
  exact Int.floor_intCast _

/-- C18, counterexample.  With child `A` at scale `(1,1,1,1)` over a source whose current
limits are `2 ^ 53` mA, the target `2 ^ 53 + 1` is accepted, because its conversion to `double`
is `2 ^ 53`, while the status that `get_status_of(A)` returns has
`max_discharging_current_mA = 2 ^ 53`, below the target. -/
theorem schedule_accepts_above_status_limit :
    0 ≤ (Scenario.big_world.get_status Scenario.policy.source).max_charging_current_mA ∧
    0 ≤ (Scenario.big_world.get_status Scenario.policy.source).max_discharging_current_mA ∧
    (schedule_set_current_of Scenario.policy Scenario.big_world (some 1) 9007199254740993 true
      10 20).calls ≠ [] ∧
    (get_status_of Scenario.policy Scenario.big_world
      (some 1)).status.max_discharging_current_mA = 9007199254740992 ∧
    ¬ ((schedule_set_current_of Scenario.policy Scenario.big_world (some 1) 9007199254740993
        true 10 20).calls ≠ [] ↔
      (-(get_status_of Scenario.policy Scenario.big_world
          (some 1)).status.max_charging_current_mA ≤ 9007199254740993 ∧
        (9007199254740993 : Int) ≤ (get_status_of Scenario.policy Scenario.big_world
          (some 1)).status.max_discharging_current_mA)) := by
  have hacc : (schedule_set_current_of Scenario.policy Scenario.big_world (some 1)
      9007199254740993 true 10 20).calls ≠ [] := by
    rw [Ne, schedule_calls_eq_nil_iff]
    exact scenario_big_guard
  refine ⟨by decide, by decide, hacc, scenario_big_status_limit, ?_⟩
  intro h
  have h2 := (h.1 hacc).2
  rw [scenario_big_status_limit] at h2
  omega

/-- C18, amended.  The limits a child sees are the limits enforced for every target that a
`double` represents exactly: when the source's `max_charging_current_mA` and
`max_discharging_current_mA` are non-negative, the child's scale has its fields in `[0,1]` and
the target lies within `[-2 ^ 53, 2 ^ 53]`, `schedule_set_current_of(child, target, ...)` is
accepted (sends a command to the source) exactly when
`-s.max_charging_current_mA <= target <= s.max_discharging_current_mA`, where `s` is the status
that `get_status_of(child)` returns in the same state. -/
theorem schedule_accepts_iff_within_status (p : State) (w : World) (child : BatteryPtr)
    (target_current_mA : Int) (is_greater_than_target : Bool)
    (when_to_set until_when : timepoint_t)
    (hcharge : 0 ≤ (w.get_status p.source).max_charging_current_mA)
    (hdischarge : 0 ≤ (w.get_status p.source).max_discharging_current_mA)
    (hrange : Scale.InRange (StdMap.get p.scale_map child Scale.dflt))
    (hlow : -2 ^ (53 : ℕ) ≤ target_current_mA) (hhigh : target_current_mA ≤ 2 ^ (53 : ℕ)) :
    (schedule_set_current_of p w child target_current_mA is_greater_than_target
        when_to_set until_when).calls ≠ [] ↔
      (-(get_status_of p w child).status.max_charging_current_mA ≤ target_current_mA ∧
        target_current_mA ≤ (get_status_of p w child).status.max_discharging_current_mA) := by
  obtain ⟨-, -, ⟨hd0, -⟩, ⟨hc0, -⟩⟩ := hrange
  have hqd := double.mul_nonneg_of_nonneg hdischarge hd0
  have hqc := double.mul_nonneg_of_nonneg hcharge hc0
  have e1 : (get_status_of p w child).status.max_discharging_current_mA =
      ⌊double.mul (double.ofInt (w.get_status p.source).max_discharging_current_mA)
        (StdMap.get p.scale_map child Scale.dflt).max_discharge_rate⌋ :=
    to_int64_of_nonneg hqd
  have e2 : (get_status_of p w child).status.max_charging_current_mA =
      ⌊double.mul (double.ofInt (w.get_status p.source).max_charging_current_mA)
        (StdMap.get p.scale_map child Scale.dflt).max_charge_rate⌋ :=
    to_int64_of_nonneg hqc
  rw [e1, e2, Ne, schedule_calls_eq_nil_iff, target_too_high,
    double.ofInt_eq target_current_mA hlow hhigh,
    double.ofInt_eq (-target_current_mA) (by omega) (by omega), not_or, not_lt, not_lt,
    ← Int.le_floor, ← Int.le_floor, neg_le]
  exact and_comm

/-- Witness of C18: child `A` at scale `(1,1,1,1)` over a source with limits of 10000 mA and the
target 5000 mA; the status reports the limits 10000 and the call is accepted. -/
theorem schedule_accepts_iff_within_status_witness :
    0 ≤ (Scenario.world.get_status Scenario.policy.source).max_charging_current_mA ∧
    0 ≤ (Scenario.world.get_status Scenario.policy.source).max_discharging_current_mA ∧
    Scale.InRange (StdMap.get Scenario.policy.scale_map (some 1) Scale.dflt) ∧
    ((schedule_set_current_of Scenario.policy Scenario.world (some 1) 5000 true 10 20).calls
        ≠ [] ↔
      (-(get_status_of Scenario.policy Scenario.world
          (some 1)).status.max_charging_current_mA ≤ 5000 ∧
        (5000 : Int) ≤ (get_status_of Scenario.policy Scenario.world
          (some 1)).status.max_discharging_current_mA)) ∧
    (get_status_of Scenario.policy Scenario.world
      (some 1)).status.max_discharging_current_mA = 10000 ∧
    (schedule_set_current_of Scenario.policy Scenario.world (some 1) 5000 true 10 20).calls
      ≠ [] := by
  have hr : Scale.InRange (StdMap.get Scenario.policy.scale_map (some 1) Scale.dflt) := by
    rw [scenario_scale_A]
    norm_num [Scale.InRange]
  have hlim : (get_status_of Scenario.policy Scenario.world
      (some 1)).status.max_discharging_current_mA = 10000 := by
    show to_int64 (double.mul (double.ofInt 10000)
      (StdMap.get Scenario.policy.scale_map (some 1) Scale.dflt).max_discharge_rate) = _
    rw [scenario_scale_A]
    show to_int64 (double.mul (double.ofInt 10000) 1) = _
    rw [double.mul_ofInt_one 10000 (by norm_num) (by norm_num),
      to_int64_of_nonneg (by norm_num)]
    exact Int.floor_intCast _
  have hacc : (schedule_set_current_of Scenario.policy Scenario.world (some 1) 5000 true 10
      20).calls ≠ [] := by
    rw [Ne, schedule_calls_eq_nil_iff, scenario_guard 5000 (by norm_num) (by norm_num)]
    omega
  exact ⟨by decide, by decide, hr,
    schedule_accepts_iff_within_status Scenario.policy Scenario.world (some 1) 5000 true 10 20
      (by decide) (by decide) hr (by norm_num) (by norm_num), hlim, hacc⟩

end ProportionalPolicy

/-! ## ProportionalPolicy: the aggregate and the source's limits -/

namespace StdMap

variable {K V : Type} [DecidableEq K]

theorem keys_assign (m : List (K × V)) (k : K) (v : V) :
    keys (assign m k v) = if k ∈ keys m then keys m else keys m ++ [k] := by
  induction m with
  | nil => simp [assign, keys]
  | cons e t ih =>
    obtain ⟨k0, v0⟩ := e
    by_cases h0 : k0 = k
    · subst h0
      simp [assign, keys]
    · have hk : k ≠ k0 := fun h => h0 h.symm
      simp only [keys] at ih
      by_cases hm : k ∈ List.map Prod.fst t
      · simp [assign, keys, h0, hk, hm, ih]
      · simp [assign, keys, h0, hk, hm, ih]

theorem keys_assign_nodup {m : List (K × V)} (k : K) (v : V) (h : (keys m).Nodup) :
    (keys (assign m k v)).Nodup := by
  rw [keys_assign]
  split
  · exact h
  · rename_i hk
    exact List.Nodup.append h (List.nodup_singleton k) (by simpa using hk)

theorem filter_key_eq_nil (m : List (K × V)) (k : K) (h : k ∉ keys m) :
    m.filter (fun e => decide (e.1 = k)) = [] := by
  rw [List.filter_eq_nil_iff]
  intro e he hk
  apply h
  have hk' : e.1 = k := by simpa using hk
  rw [← hk']
  exact List.mem_map_of_mem Prod.fst he

theorem get_cons_ne (k0 : K) (v0 : V) (t : List (K × V)) {k : K} (d : V) (h : k ≠ k0) :
    get ((k0, v0) :: t) k d = get t k d := by
  simp [get, find, Ne.symm h]

theorem get_cons_self (k0 : K) (v0 : V) (t : List (K × V)) (d : V) :
    get ((k0, v0) :: t) k0 d = v0 := by
  simp [get, find]

end StdMap

namespace ProportionalPolicy

theorem keys_filter_nodup {K V : Type} {m : List (K × V)} (P : K × V → Bool)
    (h : (StdMap.keys m).Nodup) : (StdMap.keys (m.filter P)).Nodup :=
  List.Nodup.sublist (List.Sublist.map Prod.fst (List.filter_sublist m)) h

theorem get_inRange_of_all {m : List (BatteryPtr × Scale)}
    (h : ∀ e ∈ m, Scale.InRange e.2) (k : BatteryPtr) :
    Scale.InRange (StdMap.get m k Scale.dflt) := by
  unfold StdMap.get
  cases hf : StdMap.find m k with
  | none => exact Scale.newProportion_inRange (some 0)
  | some v => exact h _ (StdMap.mem_of_find hf)

theorem sum_map_filter_split {α : Type} (l : List α) (P : α → Bool) (h : α → ℚ) :
    (l.map h).sum = ((l.filter P).map h).sum + ((l.filter (fun a => !P a)).map h).sum := by
  induction l with
  | nil => simp
  | cons a t ih =>
    by_cases hp : P a = true
    · simp [List.filter_cons, hp, ih, add_assoc]
    · have hp' : P a = false := by simpa using hp
      simp [List.filter_cons, hp', ih]
      ring

theorem sum_key_entries_le (cm : List (BatteryPtr × Int)) (k0 : BatteryPtr) (g : Int → ℚ)
    (B : ℚ) (hB : 0 ≤ B) (hnd : (StdMap.keys cm).Nodup)
    (hb : ∀ e ∈ cm, e.1 = k0 → g e.2 ≤ B) :
    ((cm.filter (fun e => decide (e.1 = k0))).map (fun e => g e.2)).sum ≤ B := by
  induction cm with
  | nil => simpa using hB
  | cons e t ih =>
    simp only [StdMap.keys, List.map_cons, List.nodup_cons] at hnd
    by_cases he : e.1 = k0
    · have hnil := StdMap.filter_key_eq_nil t k0 (by rw [← he]; exact hnd.1)
      simp only [List.filter_cons, he, decide_True, if_true, hnil, List.map_cons, List.map_nil,
        List.sum_cons, List.sum_nil, add_zero]
      exact hb e (List.mem_cons_self _ _) he
    · simp only [List.filter_cons, he, decide_False, Bool.false_eq_true, if_false]
      exact ih hnd.2 (fun e' he' => hb e' (List.mem_cons_of_mem _ he'))

theorem sum_nonpos_of_all {α : Type} (l : List α) (h : α → ℚ) (hle : ∀ a ∈ l, h a ≤ 0) :
    (l.map h).sum ≤ 0 := by
  induction l with
  | nil => simp
  | cons a t ih =>
    simp only [List.map_cons, List.sum_cons]
    have h1 := hle a (List.mem_cons_self _ _)
    have h2 := ih (fun b hb => hle b (List.mem_cons_of_mem _ hb))
    linarith

/-- The core bound: targets that each respect their share of a limit `L`, over pairwise
distinct keys, add up to at most `L` times the sum of the shares. -/
theorem sum_targets_le (f : Scale → ℚ) (L : ℚ) (hL : 0 ≤ L) (hf0 : f Scale.dflt = 0)
    (g : Int → ℚ) (sm : List (BatteryPtr × Scale)) (hnn : ∀ e ∈ sm, 0 ≤ f e.2)
    (cm : List (BatteryPtr × Int)) (hnd : (StdMap.keys cm).Nodup)
    (hb : ∀ e ∈ cm, g e.2 ≤ L * f (StdMap.get sm e.1 Scale.dflt)) :
    (cm.map (fun e => g e.2)).sum ≤ L * scale_sum f sm := by
  induction sm generalizing cm with
  | nil =>
    have h0 : ∀ e ∈ cm, g e.2 ≤ 0 := by
      intro e he
      have := hb e he
      simpa [StdMap.get, StdMap.find, hf0] using this
    have := sum_nonpos_of_all cm (fun e => g e.2) h0
    simpa [scale_sum] using this
  | cons e0 t ih =>
    obtain ⟨k0, s0⟩ := e0
    have hs0 : 0 ≤ f s0 := hnn (k0, s0) (List.mem_cons_self _ _)
    have hsplit := sum_map_filter_split cm (fun e => decide (e.1 = k0)) (fun e => g e.2)
    have h1 : ((cm.filter (fun e => decide (e.1 = k0))).map (fun e => g e.2)).sum ≤ L * f s0 := by
      apply sum_key_entries_le cm k0 g (L * f s0) (mul_nonneg hL hs0) hnd
      intro e he hk
      have := hb e he
      rwa [hk, StdMap.get_cons_self] at this
    have h2 : ((cm.filter (fun e => !decide (e.1 = k0))).map (fun e => g e.2)).sum ≤
        L * scale_sum f t := by
      apply ih (fun e he => hnn e (List.mem_cons_of_mem _ he))
      · exact keys_filter_nodup _ hnd
      · intro e he
        rw [List.mem_filter] at he
        have hk : e.1 ≠ k0 := by simpa using he.2
        have := hb e he.1
        rwa [StdMap.get_cons_ne k0 s0 t Scale.dflt hk] at this
    have hsum : scale_sum f ((k0, s0) :: t) = f s0 + scale_sum f t := by
      simp [scale_sum]
    rw [hsplit, hsum, mul_add]
    exact add_le_add h1 h2

theorem cast_current_sum (cm : List (BatteryPtr × Int)) :
    ((current_sum cm : Int) : ℚ) = (cm.map (fun e => ((e.2 : Int) : ℚ))).sum := by
  induction cm with
  | nil => simp [current_sum]
  | cons e t ih =>
    simp only [current_sum] at ih
    simp [current_sum, ih]

theorem neg_cast_current_sum (cm : List (BatteryPtr × Int)) :
    -((current_sum cm : Int) : ℚ) = (cm.map (fun e => -((e.2 : Int) : ℚ))).sum := by
  induction cm with
  | nil => simp [current_sum]
  | cons e t ih =>
    simp only [current_sum] at ih
    simp only [current_sum, List.map_cons, List.sum_cons, Int.cast_add, neg_add, ih]

theorem dflt_fields : Scale.dflt = ⟨0, 0, 0, 0⟩ := Scale.newProportion_zero

/-- What one entry of `current_map` contributes: a target that is 0 or accepted under source
limits below `2 ^ 53` is exactly representable, and is bounded by the exact product of limit
and scale enlarged by the relative rounding error `2 ^ -53`. -/
theorem entry_within_share (source_status : BatteryStatus) (sc : Scale) (t : Int)
    (hcharge : 0 ≤ source_status.max_charging_current_mA)
    (hdischarge : 0 ≤ source_status.max_discharging_current_mA)
    (hcharge53 : source_status.max_charging_current_mA < 2 ^ (53 : ℕ))
    (hdischarge53 : source_status.max_discharging_current_mA < 2 ^ (53 : ℕ))
    (hsc : Scale.InRange sc)
    (h : t = 0 ∨ ¬ target_too_high source_status sc t) :
    (t : ℚ) ≤ (source_status.max_discharging_current_mA : ℚ) * (1 + 1 / 2 ^ (53 : ℕ)) *
        sc.max_discharge_rate ∧
      -(t : ℚ) ≤ (source_status.max_charging_current_mA : ℚ) * (1 + 1 / 2 ^ (53 : ℕ)) *
        sc.max_charge_rate := by
  obtain ⟨-, -, ⟨hd0, hd1⟩, ⟨hc0, hc1⟩⟩ := hsc
  have hD : (0 : ℚ) ≤ (source_status.max_discharging_current_mA : ℚ) := by
    exact_mod_cast hdischarge
  have hC : (0 : ℚ) ≤ (source_status.max_charging_current_mA : ℚ) := by
    exact_mod_cast hcharge
  have hD53 : (source_status.max_discharging_current_mA : ℚ) ≤ 2 ^ (53 : ℕ) - 1 := by
    have : source_status.max_discharging_current_mA ≤ 2 ^ (53 : ℕ) - 1 := by omega
    exact_mod_cast this
  have hC53 : (source_status.max_charging_current_mA : ℚ) ≤ 2 ^ (53 : ℕ) - 1 := by
    have : source_status.max_charging_current_mA ≤ 2 ^ (53 : ℕ) - 1 := by omega
    exact_mod_cast this
  rcases h with h0 | hacc
  · rw [h0]
    simp only [Int.cast_zero, neg_zero]
    exact ⟨mul_nonneg (mul_nonneg hD (by positivity)) hd0,
      mul_nonneg (mul_nonneg hC (by positivity)) hc0⟩
  · unfold target_too_high at hacc
    rw [not_or, not_lt, not_lt] at hacc
    obtain ⟨ha, hb⟩ := hacc
    rw [double.ofInt_eq source_status.max_discharging_current_mA (by omega) (by omega)] at ha
    rw [double.ofInt_eq source_status.max_charging_current_mA (by omega) (by omega)] at hb
    unfold double.mul at ha hb
    have hxd : (0 : ℚ) ≤ (source_status.max_discharging_current_mA : ℚ) *
        sc.max_discharge_rate := mul_nonneg hD hd0
    have hxc : (0 : ℚ) ≤ (source_status.max_charging_current_mA : ℚ) *
        sc.max_charge_rate := mul_nonneg hC hc0
    have hPd := double.fl_le hxd
    have hPc := double.fl_le hxc
    have hxd1 : (source_status.max_discharging_current_mA : ℚ) * sc.max_discharge_rate ≤
        2 ^ (53 : ℕ) - 1 := le_trans (mul_le_of_le_one_right hD hd1) hD53
    have hxc1 : (source_status.max_charging_current_mA : ℚ) * sc.max_charge_rate ≤
        2 ^ (53 : ℕ) - 1 := le_trans (mul_le_of_le_one_right hC hc1) hC53
    have hPd53 : double.fl ((source_status.max_discharging_current_mA : ℚ) *
        sc.max_discharge_rate) < 2 ^ (53 : ℕ) := by
      have h1 : (source_status.max_discharging_current_mA : ℚ) * sc.max_discharge_rate *
          (1 + 1 / 2 ^ (53 : ℕ)) ≤ (2 ^ (53 : ℕ) - 1) * (1 + 1 / 2 ^ (53 : ℕ)) :=
        mul_le_mul_of_nonneg_right hxd1 (by positivity)
      have h2 : ((2 : ℚ) ^ (53 : ℕ) - 1) * (1 + 1 / 2 ^ (53 : ℕ)) < 2 ^ (53 : ℕ) := by
        norm_num
      linarith
    have hPc53 : double.fl ((source_status.max_charging_current_mA : ℚ) *
        sc.max_charge_rate) < 2 ^ (53 : ℕ) := by
      have h1 : (source_status.max_charging_current_mA : ℚ) * sc.max_charge_rate *
          (1 + 1 / 2 ^ (53 : ℕ)) ≤ (2 ^ (53 : ℕ) - 1) * (1 + 1 / 2 ^ (53 : ℕ)) :=
        mul_le_mul_of_nonneg_right hxc1 (by positivity)
      have h2 : ((2 : ℚ) ^ (53 : ℕ) - 1) * (1 + 1 / 2 ^ (53 : ℕ)) < 2 ^ (53 : ℕ) := by
        norm_num
      linarith
    have ht1 : t < 2 ^ (53 : ℕ) := by
      by_contra hc
      have h1 : (2 : ℚ) ^ (53 : ℕ) ≤ (t : ℚ) := by
        have : (2 : Int) ^ (53 : ℕ) ≤ t := by omega
        exact_mod_cast this
      have h2 := double.le_fl_of_two_pow_le 53 h1
      have ha' := ha
      unfold double.ofInt at ha'
      linarith
    have ht2 : -t < 2 ^ (53 : ℕ) := by
      by_contra hc
      have h1 : (2 : ℚ) ^ (53 : ℕ) ≤ ((-t : Int) : ℚ) := by
        have : (2 : Int) ^ (53 : ℕ) ≤ -t := by omega
        exact_mod_cast this
      have h2 := double.le_fl_of_two_pow_le 53 h1
      have hb' := hb
      unfold double.ofInt at hb'
      linarith
    rw [double.ofInt_eq t (by omega) (by omega)] at ha
    rw [double.ofInt_eq (-t) (by omega) (by omega)] at hb
    push_cast at hb
    constructor
    · calc (t : ℚ) ≤ _ := ha
        _ ≤ _ := hPd
        _ = _ := by ring
    · calc -(t : ℚ) ≤ _ := hb
        _ ≤ _ := hPc
        _ = _ := by ring

/-- The bound on the sum of a `current_map` whose entries each respect their scaled limits,
under source limits below `2 ^ 53`. -/
theorem current_sum_within_limits (source_status : BatteryStatus)
    (sm : List (BatteryPtr × Scale)) (cm : List (BatteryPtr × Int))
    (hcharge : 0 ≤ source_status.max_charging_current_mA)
    (hdischarge : 0 ≤ source_status.max_discharging_current_mA)
    (hcharge53 : source_status.max_charging_current_mA < 2 ^ (53 : ℕ))
    (hdischarge53 : source_status.max_discharging_current_mA < 2 ^ (53 : ℕ))
    (hscales : ∀ e ∈ sm, Scale.InRange e.2)
    (hsumD : scale_sum (fun s => s.max_discharge_rate) sm ≤ 1)
    (hsumC : scale_sum (fun s => s.max_charge_rate) sm ≤ 1)
    (hkeys : (StdMap.keys cm).Nodup)
    (hentries : ∀ e ∈ cm, e.2 = 0 ∨
      ¬ target_too_high source_status (StdMap.get sm e.1 Scale.dflt) e.2) :
    -source_status.max_charging_current_mA ≤ current_sum cm ∧
      current_sum cm ≤ source_status.max_discharging_current_mA := by
  have hD : (0 : ℚ) ≤ (source_status.max_discharging_current_mA : ℚ) := by
    exact_mod_cast hdischarge
  have hC : (0 : ℚ) ≤ (source_status.max_charging_current_mA : ℚ) := by
    exact_mod_cast hcharge
  have hD53 : (source_status.max_discharging_current_mA : ℚ) < 2 ^ (53 : ℕ) := by
    exact_mod_cast hdischarge53
  have hC53 : (source_status.max_charging_current_mA : ℚ) < 2 ^ (53 : ℕ) := by
    exact_mod_cast hcharge53
  have hb : ∀ e ∈ cm, _ := fun e he =>
    entry_within_share source_status (StdMap.get sm e.1 Scale.dflt) e.2 hcharge hdischarge
      hcharge53 hdischarge53 (get_inRange_of_all hscales e.1) (hentries e he)
  have hLD : (0 : ℚ) ≤ (source_status.max_discharging_current_mA : ℚ) *
      (1 + 1 / 2 ^ (53 : ℕ)) := mul_nonneg hD (by positivity)
  have hLC : (0 : ℚ) ≤ (source_status.max_charging_current_mA : ℚ) *
      (1 + 1 / 2 ^ (53 : ℕ)) := mul_nonneg hC (by positivity)
  have hup := sum_targets_le (fun s => s.max_discharge_rate) _ hLD (by rw [dflt_fields])
    (fun c => (c : ℚ)) sm (fun e he => (hscales e he).2.2.1.1) cm hkeys
    (fun e he => (hb e he).1)
  have hlo := sum_targets_le (fun s => s.max_charge_rate) _ hLC (by rw [dflt_fields])
    (fun c => -(c : ℚ)) sm (fun e he => (hscales e he).2.2.2.1) cm hkeys
    (fun e he => (hb e he).2)
  rw [← cast_current_sum] at hup
  rw [← neg_cast_current_sum] at hlo
  have hup1 := le_trans hup (mul_le_of_le_one_right hLD hsumD)
  have hlo1 := le_trans hlo (mul_le_of_le_one_right hLC hsumC)
  have hup2 : ((current_sum cm : Int) : ℚ) <
      ((source_status.max_discharging_current_mA + 1 : Int) : ℚ) := by
    push_cast
    have : (source_status.max_discharging_current_mA : ℚ) * (1 / 2 ^ (53 : ℕ)) < 1 := by
      have h2 : (2 : ℚ) ^ (53 : ℕ) * (1 / 2 ^ (53 : ℕ)) = 1 := by norm_num
      have := mul_lt_mul_of_pos_right hD53 (show (0 : ℚ) < 1 / 2 ^ (53 : ℕ) by positivity)
      linarith
    linarith
  have hlo2 : ((-source_status.max_charging_current_mA - 1 : Int) : ℚ) <
      ((current_sum cm : Int) : ℚ) := by
    push_cast
    have : (source_status.max_charging_current_mA : ℚ) * (1 / 2 ^ (53 : ℕ)) < 1 := by
      have h2 : (2 : ℚ) ^ (53 : ℕ) * (1 / 2 ^ (53 : ℕ)) = 1 := by norm_num
      have := mul_lt_mul_of_pos_right hC53 (show (0 : ℚ) < 1 / 2 ^ (53 : ℕ) by positivity)
      linarith
    linarith
  have hup3 : current_sum cm < source_status.max_discharging_current_mA + 1 := by
    exact_mod_cast hup2
  have hlo3 : -source_status.max_charging_current_mA - 1 < current_sum cm := by
    exact_mod_cast hlo2
  constructor <;> omega

end ProportionalPolicy

namespace ProportionalPolicy

/-- C19, counterexample.  One child at scale `(1,1,1,1)` (so each rate sums to 1), its recorded
target 0, over a source whose current limits are `2 ^ 53` mA: the target `2 ^ 53 + 1` is
accepted, its conversion to `double` being `2 ^ 53`, and the aggregate sent to the source is
`2 ^ 53 + 1`, above `max_discharging_current_mA`. -/
theorem aggregate_exceeds_source_limit :
    0 ≤ (Scenario.big_world.get_status Scenario.policy.source).max_charging_current_mA ∧
    0 ≤ (Scenario.big_world.get_status Scenario.policy.source).max_discharging_current_mA ∧
    scale_sum (fun s => s.max_discharge_rate) Scenario.policy.scale_map ≤ 1 ∧
    scale_sum (fun s => s.max_charge_rate) Scenario.policy.scale_map ≤ 1 ∧
    (∀ e ∈ Scenario.policy.current_map, e.2 = 0) ∧
    ¬ target_too_high (Scenario.big_world.get_status Scenario.policy.source)
      (StdMap.get Scenario.policy.scale_map (some 1) Scale.dflt) 9007199254740993 ∧
    (schedule_set_current_of Scenario.policy Scenario.big_world (some 1) 9007199254740993 true
      10 20).calls = [Call.schedule_set_current (some 0) 9007199254740993 true 10 20] ∧
    (Scenario.big_world.get_status Scenario.policy.source).max_discharging_current_mA =
      9007199254740992 := by
  have hcm : Scenario.policy.current_map = [(some 1, 0)] := by decide
  refine ⟨by decide, by decide, ?_, ?_, ?_, scenario_big_guard, ?_, rfl⟩
  · rw [scenario_policy_scale_map]
    norm_num [scale_sum]
  · rw [scenario_policy_scale_map]
    norm_num [scale_sum]
  · rw [hcm]
    intro e he
    simp only [List.mem_singleton] at he
    rw [he]
  · simp only [schedule_set_current_of, if_neg scenario_big_guard, foldl_add_eq_sum, zero_add]
    rw [hcm]
    have hsrc : Scenario.policy.source = some 0 := by decide
    rw [hsrc]
    simp [StdMap.assign, current_sum]

/-- C19, amended.  The aggregate command respects the source's limits when these are below
`2 ^ 53`.  Take a source status with current limits in `[0, 2 ^ 53)` and a `scale_map` of
Scales with fields in `[0,1]` whose `max_discharge_rate` fields and `max_charge_rate` fields
each sum to at most 1, and a `current_map` (one entry per battery) in which every entry is 0 or
a target that `schedule_set_current_of` accepts under that status and `scale_map`.  Then an
accepted call of `schedule_set_current_of` sends to the source an aggregate between
`-source.max_charging_current_mA` and `source.max_discharging_current_mA`. -/
theorem aggregate_within_source_limits (p : State) (w : World) (child : BatteryPtr)
    (target_current_mA : Int) (is_greater_than_target : Bool)
    (when_to_set until_when : timepoint_t)
    (hcharge : 0 ≤ (w.get_status p.source).max_charging_current_mA)
    (hdischarge : 0 ≤ (w.get_status p.source).max_discharging_current_mA)
    (hcharge53 : (w.get_status p.source).max_charging_current_mA < 2 ^ (53 : ℕ))
    (hdischarge53 : (w.get_status p.source).max_discharging_current_mA < 2 ^ (53 : ℕ))
    (hscales : ∀ e ∈ p.scale_map, Scale.InRange e.2)
    (hsumD : scale_sum (fun s => s.max_discharge_rate) p.scale_map ≤ 1)
    (hsumC : scale_sum (fun s => s.max_charge_rate) p.scale_map ≤ 1)
    (hkeys : (StdMap.keys p.current_map).Nodup)
    (hentries : ∀ e ∈ p.current_map, e.2 = 0 ∨
      ¬ target_too_high (w.get_status p.source) (StdMap.get p.scale_map e.1 Scale.dflt) e.2)
    (accepted : ¬ target_too_high (w.get_status p.source)
      (StdMap.get p.scale_map child Scale.dflt) target_current_mA) :
    ∃ aggregate : Int,
      (schedule_set_current_of p w child target_current_mA is_greater_than_target
          when_to_set until_when).calls =
        [Call.schedule_set_current p.source aggregate is_greater_than_target
          when_to_set until_when] ∧
      -(w.get_status p.source).max_charging_current_mA ≤ aggregate ∧
      aggregate ≤ (w.get_status p.source).max_discharging_current_mA := by
  refine ⟨current_sum (StdMap.assign p.current_map child target_current_mA), ?_, ?_⟩
  · simp only [schedule_set_current_of, if_neg accepted, foldl_add_eq_sum, zero_add]
  · apply current_sum_within_limits (w.get_status p.source) p.scale_map _ hcharge hdischarge
      hcharge53 hdischarge53 hscales hsumD hsumC (StdMap.keys_assign_nodup _ _ hkeys)
    intro e he
    rcases StdMap.mem_assign he with rfl | he
    · exact Or.inr accepted
    · exact hentries e he

/-- Witness of C19: two entries holding half of the source each, with the accepted targets
3000 mA and -2000 mA recorded, over a source with limits of 10000 mA; the first child's request
of 4000 mA is accepted and the aggregate sent is 2000. -/
theorem aggregate_within_source_limits_witness :
    (∀ e ∈ Scenario.policy_halves.current_map, e.2 = 0 ∨
      ¬ target_too_high (Scenario.world.get_status Scenario.policy_halves.source)
        (StdMap.get Scenario.policy_halves.scale_map e.1 Scale.dflt) e.2) ∧
    ¬ target_too_high (Scenario.world.get_status Scenario.policy_halves.source)
      (StdMap.get Scenario.policy_halves.scale_map (some 1) Scale.dflt) 4000 ∧
    (∃ aggregate : Int,
      (schedule_set_current_of Scenario.policy_halves Scenario.world (some 1) 4000 true
          10 20).calls =
        [Call.schedule_set_current Scenario.policy_halves.source aggregate true 10 20] ∧
      -(Scenario.world.get_status Scenario.policy_halves.source).max_charging_current_mA ≤
        aggregate ∧
      aggregate ≤
        (Scenario.world.get_status Scenario.policy_halves.source).max_discharging_current_mA) ∧
    (schedule_set_current_of Scenario.policy_halves Scenario.world (some 1) 4000 true
      10 20).calls = [Call.schedule_set_current (some 0) 2000 true 10 20] := by
  have hacc : ¬ target_too_high (Scenario.world.get_status Scenario.policy_halves.source)
      (StdMap.get Scenario.policy_halves.scale_map (some 1) Scale.dflt) 4000 := by
    intro h
    rcases scenario_guard_halves (some 1) 4000 (by norm_num) (by norm_num) h with h | h | h
    · exact h.1 rfl
    · omega
    · omega
  have hent : ∀ e ∈ Scenario.policy_halves.current_map, e.2 = 0 ∨
      ¬ target_too_high (Scenario.world.get_status Scenario.policy_halves.source)
        (StdMap.get Scenario.policy_halves.scale_map e.1 Scale.dflt) e.2 := by
    intro e he
    simp only [Scenario.policy_halves, List.mem_cons, List.mem_singleton,
      List.not_mem_nil, or_false] at he
    right
    rcases he with rfl | rfl
    · intro h
      rcases scenario_guard_halves (some 1) 3000 (by norm_num) (by norm_num) h with h | h | h
      · exact h.1 rfl
      · omega
      · omega
    · intro h
      rcases scenario_guard_halves none (-2000) (by norm_num) (by norm_num) h with h | h | h
      · exact h.2 rfl
      · omega
      · omega
  refine ⟨hent, hacc, aggregate_within_source_limits Scenario.policy_halves Scenario.world
    (some 1) 4000 true 10 20 (by decide) (by decide) (by decide) (by decide) ?_ ?_ ?_
    (by decide) hent hacc, ?_⟩
  · intro e he
    simp only [Scenario.policy_halves, List.mem_cons, List.mem_singleton,
      List.not_mem_nil, or_false] at he
    rcases he with rfl | rfl <;> norm_num [Scale.InRange]
  · norm_num [scale_sum, Scenario.policy_halves]
  · norm_num [scale_sum, Scenario.policy_halves]
  · simp only [schedule_set_current_of, if_neg hacc, foldl_add_eq_sum, zero_add]
    simp [Scenario.policy_halves, StdMap.assign, current_sum]

end ProportionalPolicy

end BatteryOS
